import Mathlib

/-!
Verification development for the Avito catalog harvesting pipeline.

Shallow embedding of the repository's core components:
  * `src/models/product.py`          — `RawProduct`, `NormalizedProduct`, `raw_to_normalized`
  * `src/repositories/sqlite_repository.py` — upsert store keyed by `avito_id`
  * `src/services/scraper_service.py` — pagination controller (`scrape_all`),
    per-card extraction, duplicate/cycle detection
  * `src/services/ai_service.py`     — classifier client, response parsing
  * `src/services/normalizer_service.py` — batch normalization pipeline
  * `src/services/export_service.py` — Excel report writer
  * `src/utils/retry.py`             — bounded retry with exponential backoff

Modelling conventions: Python strings are Lean `String` (or `List Char` where
positional slicing matters), timestamps are abstract `Nat` instants, browser
and HTTP effects are environment oracles passed as function arguments, and
float arithmetic (`duplicate_ratio >= 0.8`, retry delays) is modelled over
exact rationals / the equivalent integer cross-multiplication, with proved
bridging lemmas.
-/

namespace Avito

/-! ### Python string primitives

Kernel-computable models of the Python string operations the sources use
(`str.strip`, `str.startswith`, `int(str)`), built over the character list
underlying `String`. -/

/-- Python `str.strip()` on a character list. -/
def pyStrip (s : List Char) : List Char :=
  (s.dropWhile Char.isWhitespace).reverse.dropWhile Char.isWhitespace
    |>.reverse

/-- Python `str.strip()` on a `String`. -/
def pyStripStr (s : String) : String := ⟨pyStrip s.toList⟩

/-- Python `str.startswith(pre)`. -/
def pyStartsWith (s pre : String) : Bool :=
  s.toList.take pre.toList.length = pre.toList

/-- Digit-run accumulator for `int(str)`. -/
def pyDigitsAux : List Char → Nat → Option Nat
  | [], acc => some acc
  | c :: cs, acc =>
    if c.isDigit then pyDigitsAux cs (acc * 10 + (c.toNat - 48)) else none

/-- Python `int(str)` (as used on price strings): optional surrounding
whitespace, optional sign, a non-empty run of digits; anything else raises
`ValueError` (`none`). -/
def pyToInt (s : String) : Option Int :=
  match pyStrip s.toList with
  | [] => none
  | c :: rest =>
    if c = '-' then
      if rest = [] then none
      else (pyDigitsAux rest 0).map (fun n => -(n : Int))
    else if c = '+' then
      if rest = [] then none
      else (pyDigitsAux rest 0).map (fun n => (n : Int))
    else (pyDigitsAux (c :: rest) 0).map (fun n => (n : Int))

/-- Model of `RawProduct` (src/models/product.py).  `scraped_at` is an
abstract timestamp instant. -/
structure RawProduct where
  avito_id : String
  title : String
  price : Int
  url : String
  description : String := ""
  image_url : String := ""
  seller_name : String := ""
  seller_rating : String := ""
  seller_reviews : String := ""
  scraped_at : Nat := 0
deriving DecidableEq, Repr, Inhabited

/-- `RawProduct.full_url` property: prepend the Avito base URL unless the
stored url is already absolute. -/
def RawProduct.full_url (p : RawProduct) : String :=
  let base := "https://www.avito.ru"
  if pyStartsWith p.url "http" then p.url else base ++ p.url

/-- Model of `NormalizedProduct` (src/models/product.py). -/
structure NormalizedProduct where
  avito_id : String
  original_title : String
  normalized_title : String
  product_category : String
  key_specs : String
  price : Int
  url : String
  full_url : String
  description : String := ""
  image_url : String := ""
  seller_name : String := ""
  seller_rating : String := ""
  seller_reviews : String := ""
  scraped_at : Nat := 0
  normalized_at : Nat := 0
deriving DecidableEq, Repr, Inhabited

/-- `raw_to_normalized` (src/models/product.py): combine one raw product with
the classifier fields; `now` models `datetime.now(timezone.utc)`. -/
def raw_to_normalized (raw : RawProduct) (normalized_title : String)
    (product_category : String) (key_specs : String) (now : Nat) :
    NormalizedProduct :=
  { avito_id := raw.avito_id
    original_title := raw.title
    normalized_title := normalized_title
    product_category := product_category
    key_specs := key_specs
    price := raw.price
    url := raw.url
    full_url := raw.full_url
    description := raw.description
    image_url := raw.image_url
    seller_name := raw.seller_name
    seller_rating := raw.seller_rating
    seller_reviews := raw.seller_reviews
    scraped_at := raw.scraped_at
    normalized_at := now }

/-! ### Repository (src/repositories/sqlite_repository.py)

The `raw_products` table has `avito_id TEXT PRIMARY KEY`; inserts use
`ON CONFLICT(avito_id) DO UPDATE SET` (all non-key columns replaced).  The
table is modelled as a list of rows in insertion order: an upsert on a
present key rewrites that row in place, otherwise it appends. -/

/-- The `avito_id` column of a list of rows. -/
def idsOf (l : List RawProduct) : List String := l.map RawProduct.avito_id

/-- `save_raw_product`: SQLite upsert of one row keyed by `avito_id`. -/
def save_raw_product (db : List RawProduct) (p : RawProduct) :
    List RawProduct :=
  if db.any (fun r => r.avito_id = p.avito_id) then
    db.map (fun r => if r.avito_id = p.avito_id then p else r)
  else db ++ [p]

/-- `save_raw_products`: `executemany` of the same upsert statement, i.e. the
rows are upserted sequentially in list order. -/
def save_raw_products (db : List RawProduct) (ps : List RawProduct) :
    List RawProduct :=
  ps.foldl save_raw_product db

/-- The `avito_id` column of the `normalized_products` table. -/
def normIdsOf (l : List NormalizedProduct) : List String :=
  l.map NormalizedProduct.avito_id

/-- `save_normalized_product`: SQLite upsert keyed by `avito_id` into the
`normalized_products` table. -/
def save_normalized_product (db : List NormalizedProduct)
    (p : NormalizedProduct) : List NormalizedProduct :=
  if db.any (fun r => r.avito_id = p.avito_id) then
    db.map (fun r => if r.avito_id = p.avito_id then p else r)
  else db ++ [p]

/-- `save_normalized_products`: sequential batch upsert. -/
def save_normalized_products (db : List NormalizedProduct)
    (ps : List NormalizedProduct) : List NormalizedProduct :=
  ps.foldl save_normalized_product db

/-! ### Scraper service (src/services/scraper_service.py)

URLs are modelled structurally as a path plus a parsed query string (an
association list, first binding wins as in `parse_qs(...)[0]`).  Browser
effects — `_parse_current_page` (container wait, scrolling and card parsing
folded in), the pagination-button lookup of
`_find_target_page_button`/`_navigate_pagination_window` (with its bounded
reload retries folded in), `_detect_total_pages`, and navigation success of
`page.goto` plus the blocked / catalog-container checks of
`_go_to_next_page` — are a deterministic environment oracle `Catalog`. -/

/-- A URL as seen by `_normalize_url_for_comparison`: path and query
parameters. -/
structure Url where
  path : String
  query : List (String × String)
deriving DecidableEq, Repr, Inhabited

/-- `_normalize_url_for_comparison`: page identity is the path plus the first
value of the `p` query parameter, defaulting to page 1. -/
def normalizeUrlForComparison (u : Url) : String :=
  let pageNum := ((u.query.find? (fun kv => kv.1 = "p")).map Prod.snd).getD "1"
  u.path ++ "?p=" ++ pageNum

/-- Constants of scraper_service.py. -/
def MAX_ELEMENT_RETRIES : Nat := 10

/-- Maximum number of consecutive empty pages before stopping. -/
def MAX_EMPTY_PAGES : Nat := 2

/-- Duplicate-ratio threshold for pagination-cycle detection
(`DUPLICATE_THRESHOLD = 0.8`), as an exact rational. -/
def DUPLICATE_THRESHOLD : ℚ := 8 / 10

/-- One item card as the DOM queries of `_parse_single_card` see it:
the `data-item-id` attribute, the optional title link (inner text and
optional `href`), the optional `meta[itemprop=price]` / description /
image elements (each with an optional attribute value), and the
seller-info texts (the helper extractors default to `""`). -/
structure Card where
  dataItemId : Option String
  titleEl : Option (String × Option String)
  priceContent : Option (Option String)
  descContent : Option (Option String)
  imageSrc : Option (Option String)
  sellerName : String := ""
  sellerRating : String := ""
  sellerReviews : String := ""
deriving DecidableEq, Repr, Inhabited

/-- `_parse_single_card`: extract one `RawProduct` from a card, or `none`
when the card lacks an id or a (stripped) title.  `now` models the
`scraped_at` default factory. -/
def parse_single_card (card : Card) (now : Nat) : Option RawProduct :=
  let avito_id := card.dataItemId.getD ""
  if avito_id = "" then none
  else
    let tu : String × String :=
      match card.titleEl with
      | some (txt, href) => (pyStripStr txt, href.getD "")
      | none => ("", "")
    if tu.1 = "" then none
    else
      let price : Int :=
        match card.priceContent with
        | some content => (pyToInt (content.getD "0")).getD 0
        | none => 0
      let description :=
        match card.descContent with
        | some content => content.getD ""
        | none => ""
      let image_url :=
        match card.imageSrc with
        | some src => src.getD ""
        | none => ""
      some
        { avito_id := avito_id
          title := tu.1
          price := price
          url := tu.2
          description := description
          image_url := image_url
          seller_name := card.sellerName
          seller_rating := card.sellerRating
          seller_reviews := card.sellerReviews
          scraped_at := now }

/-- The card loop of `_parse_current_page`: parse every card, keep the
successful ones (per-card failures are logged and skipped). -/
def parse_current_page (cards : List Card) (now : Nat) : List RawProduct :=
  cards.filterMap (fun c => parse_single_card c now)

/-- Result of the per-page duplicate scan in `scrape_all` (lines 226-234):
the fresh products in page order, the duplicate count, and the updated
seen-id set. -/
structure DedupResult where
  newProducts : List RawProduct
  duplicateCount : Nat
  seen : Finset String
deriving DecidableEq

/-- The per-page duplicate scan: walk the page's products in order; an id
already in the seen-set counts as a duplicate, a fresh id is added to the
seen-set and kept. -/
def dedupStep : List RawProduct → Finset String → DedupResult
  | [], seen => ⟨[], 0, seen⟩
  | p :: rest, seen =>
    if p.avito_id ∈ seen then
      let r := dedupStep rest seen
      ⟨r.newProducts, r.duplicateCount + 1, r.seen⟩
    else
      let r := dedupStep rest (insert p.avito_id seen)
      ⟨p :: r.newProducts, r.duplicateCount, r.seen⟩

/-- Environment oracle for one crawl: what the site returns at each URL.
`parsePage` is the value of `_parse_current_page` on the page at that URL
(an empty list also covers the container never appearing); `nextBtn` is the
URL behind the `page(n)` pagination button found by
`_find_target_page_button` / `_navigate_pagination_window` (with their
bounded retries folded in, `none` when exhausted); `detectTotal` is
`_detect_total_pages` (0 = no pagination found); `navOk` is the success of
navigating to a URL including the blocked check and the catalog-container
wait. -/
structure Catalog where
  parsePage : Url → List RawProduct
  nextBtn : Url → Nat → Option Url
  detectTotal : Url → Nat
  navOk : Url → Bool

/-- Crawl state of one `scrape_all` run, plus instrumentation
(`extractedPages`: each `_parse_current_page` result in order;
`storedBatches`: each non-empty batch passed to `save_raw_products`;
`transitions`: successful page transitions; `inserts`: additions to
`_visited_urls` made while resolving next pages). -/
structure CrawlState where
  url : Url
  visited : Finset String
  seen : Finset String
  totalPages : Nat
  pageNum : Nat
  emptyCount : Nat
  storedBatches : List (List RawProduct)
  allProducts : List RawProduct
  extractedPages : List (List RawProduct)
  transitions : Nat
  inserts : Nat
deriving DecidableEq

/-- `if new_products: self._repository.save_raw_products(new_products);
all_products.extend(new_products)`. -/
def storeBatch (s : CrawlState) (newProds : List RawProduct) : CrawlState :=
  if newProds.isEmpty then s
  else
    { s with
      storedBatches := s.storedBatches ++ [newProds]
      allProducts := s.allProducts ++ newProds }

/-- The post-transition re-probe of the pagination total
(`updated_total = detect; if updated_total > 0: total = updated_total`). -/
def nextTotalPages (cat : Catalog) (t : Url) (s : CrawlState) : Nat :=
  if 0 < cat.detectTotal t then cat.detectTotal t else s.totalPages

/-- The tail of one `scrape_all` loop iteration, after page extraction:
the `max_pages` check, the `total_pages` check, and `_go_to_next_page`
(next-page URL resolution with the visited-set cycle check of
`_find_next_page_url_with_retry`, then navigation and the post-navigation
total-pages re-probe).  Returns the next state and whether the loop stops.
-/
def crawlAfter (cat : Catalog) (maxPages : Nat) (s : CrawlState) :
    CrawlState × Bool :=
  if 0 < maxPages ∧ maxPages ≤ s.pageNum then (s, true)
  else if 0 < s.totalPages ∧ s.totalPages ≤ s.pageNum then (s, true)
  else
    match cat.nextBtn s.url (s.pageNum + 1) with
    | none => (s, true)
    | some t =>
      if normalizeUrlForComparison t ∈ s.visited then (s, true)
      else if cat.navOk t then
        ({ s with
           visited := insert (normalizeUrlForComparison t) s.visited
           inserts := s.inserts + 1
           url := t
           pageNum := s.pageNum + 1
           transitions := s.transitions + 1
           totalPages := nextTotalPages cat t s }, false)
      else
        ({ s with
           visited := insert (normalizeUrlForComparison t) s.visited
           inserts := s.inserts + 1 }, true)

/-- One iteration of the `while True` loop of `scrape_all`: extract the
current page; on a non-empty page run the duplicate scan and, when the
duplicate ratio reaches the threshold, store the remaining fresh products
and stop; otherwise store and continue.  On an empty page bump the
consecutive-empty counter and stop after `MAX_EMPTY_PAGES`.
The ratio test `duplicate_count / len(products) >= DUPLICATE_THRESHOLD` is
written in the exact cross-multiplied form `4 * len <= 5 * dup`
(equivalent over the rationals; see `duplicate_ratio_ge_iff`). -/
def crawlStep (cat : Catalog) (maxPages : Nat) (s : CrawlState) :
    CrawlState × Bool :=
  let products := cat.parsePage s.url
  let s1 := { s with extractedPages := s.extractedPages ++ [products] }
  if products.isEmpty then
    let s2 := { s1 with emptyCount := s1.emptyCount + 1 }
    if MAX_EMPTY_PAGES ≤ s2.emptyCount then (s2, true)
    else crawlAfter cat maxPages s2
  else
    let r := dedupStep products s1.seen
    let s2 := { s1 with seen := r.seen }
    if 4 * products.length ≤ 5 * r.duplicateCount then
      (storeBatch s2 r.newProducts, true)
    else
      crawlAfter cat maxPages
        { storeBatch s2 r.newProducts with emptyCount := 0 }

/-- The `while True` loop of `scrape_all`, with explicit fuel; `none` means
the fuel ran out before the loop stopped. -/
def crawlLoop (cat : Catalog) (maxPages : Nat) :
    Nat → CrawlState → Option CrawlState
  | 0, _ => none
  | fuel + 1, s =>
    let r := crawlStep cat maxPages s
    if r.2 then some r.1 else crawlLoop cat maxPages fuel r.1

/-- Initial crawl state of `scrape_all`: state cleared, initial URL recorded
in the visited set, total pages probed on the first page. -/
def initialCrawlState (cat : Catalog) (categoryUrl : Url) : CrawlState :=
  { url := categoryUrl
    visited := {normalizeUrlForComparison categoryUrl}
    seen := ∅
    totalPages := cat.detectTotal categoryUrl
    pageNum := 1
    emptyCount := 0
    storedBatches := []
    allProducts := []
    extractedPages := []
    transitions := 0
    inserts := 0 }

/-- `scrape_all`: navigate to the category URL (on failure return with
nothing scraped and the loop never entered), then run the pagination loop.
-/
def scrape_all (cat : Catalog) (categoryUrl : Url) (maxPages : Nat)
    (fuel : Nat) : Option CrawlState :=
  if cat.navOk categoryUrl then
    crawlLoop cat maxPages fuel (initialCrawlState cat categoryUrl)
  else
    some
      { url := categoryUrl, visited := ∅, seen := ∅, totalPages := 0
        pageNum := 1, emptyCount := 0, storedBatches := []
        allProducts := [], extractedPages := [], transitions := 0
        inserts := 0 }

/-! ### Retry primitive (src/utils/retry.py, `async_retry`)

The wrapped coroutine is an outcome oracle `op : Nat → Except E A` giving
the result of each numbered attempt.  Matching the configured exception
tuple is a predicate `retriable : E → Bool`.  Float delays are modelled as
exact rationals.  The run returns the final outcome, the number of attempts
made, and the list of back-off sleeps performed (in order). -/

/-- Outcome of a call wrapped by `async_retry`: a returned value, a raised
exception (either re-raised after exhaustion or a non-matching exception
propagating out of the `try`), or the implicit `None` return when
`max_retries = 0` makes the `for` loop body never run. -/
inductive RetryOutcome (E A : Type) where
  | ok (a : A)
  | err (e : E)
  | noneReturn
deriving DecidableEq, Repr

/-- The attempt loop of `async_retry`: `remaining` attempts left (so the
current attempt is the last one exactly when `remaining = 1`,
i.e. `attempt == max_retries`), `attempt` the 1-based attempt number,
`curDelay` the current back-off delay. -/
def retryGo {E A : Type} (op : Nat → Except E A) (retriable : E → Bool)
    (backoff : ℚ) :
    Nat → Nat → ℚ → RetryOutcome E A × Nat × List ℚ
  | 0, _, _ => (.noneReturn, 0, [])
  | remaining + 1, attempt, curDelay =>
    match op attempt with
    | .ok a => (.ok a, 1, [])
    | .error e =>
      if retriable e then
        if remaining = 0 then (.err e, 1, [])
        else
          let r :=
            retryGo op retriable backoff remaining (attempt + 1)
              (curDelay * backoff)
          (r.1, r.2.1 + 1, curDelay :: r.2.2)
      else (.err e, 1, [])

/-- `async_retry(max_retries, delay, backoff_factor, exceptions)` applied to
an operation: run up to `maxRetries` attempts, sleeping `curDelay` and
multiplying it by `backoff` after each matching failure that is not the
last attempt; re-raise the failure of the last attempt; propagate a
non-matching failure immediately. -/
def async_retry {E A : Type} (maxRetries : Nat) (delay backoff : ℚ)
    (retriable : E → Bool) (op : Nat → Except E A) :
    RetryOutcome E A × Nat × List ℚ :=
  retryGo op retriable backoff maxRetries 1 delay

/-! ### AI service (src/services/ai_service.py)

The classifier response text is a `List Char` so that the positional
slicing of `_extract_json_from_response` is literal.  `json.loads` is the
Python standard library, consumed as an abstract total parser
`jsonParse : List Char → Option Json` (`none` = `JSONDecodeError`). -/

/-- A parsed JSON value (the shape `json.loads` can return). -/
inductive Json where
  | str (s : String)
  | num (n : Int)
  | bool (b : Bool)
  | null
  | arr (xs : List Json)
  | obj (kvs : List (String × Json))
deriving Inhabited

/-- Python `dict` lookup on an object built from a key/value list
(later duplicate keys win, as in both `json.loads` and dict displays). -/
def getField (kvs : List (String × Json)) (k : String) : Option Json :=
  (kvs.reverse.find? (fun kv => kv.1 = k)).map Prod.snd

/-- Python `str()` of a JSON scalar, as applied to classifier result
fields.  (Container reprs are abstracted to a placeholder; the claims
never depend on them.) -/
def jsonScalarStr : Json → String
  | .str s => s
  | .num n => toString n
  | .bool b => if b then "True" else "False"
  | .null => "None"
  | .arr _ => "<arr>"
  | .obj _ => "<obj>"

/-- A failure of the classifier interaction, by Python exception class:
`transport` = `aiohttp.ClientError`; `service` = `AIServiceError`;
`valueError` = the uncaught `ValueError` that `str.index` raises in
`_extract_json_from_response` when an opening fence has no closing fence;
`noneResponse` = the implicit `None` return of an `async_retry` wrapper
with `max_retries = 0`. -/
inductive AIFailure where
  | transport
  | service (msg : String)
  | valueError
  | noneResponse
deriving DecidableEq, Repr

/-- Does `needle` occur in `hay` starting at position `i`? -/
def subAt (hay needle : List Char) (i : Nat) : Bool :=
  (hay.drop i).take needle.length = needle

/-- Python `str.find` / `str.index` for a substring: the first position at
which `needle` occurs in `hay`, if any. -/
def pyFindSub (hay needle : List Char) : Option Nat :=
  (List.range (hay.length + 1)).find? (fun i => subAt hay needle i)

/-- Python `str.find(c)` for a single character. -/
def pyFindChar (hay : List Char) (c : Char) : Option Nat :=
  (List.range hay.length).find? (fun i => hay.get? i = some c)

/-- Python `str.rfind(c)` for a single character: the last occurrence. -/
def pyRFindChar (hay : List Char) (c : Char) : Option Nat :=
  (List.range hay.length).reverse.find? (fun i => hay.get? i = some c)

/-- The plain markdown fence `"```"`. -/
def fenceChars : List Char := String.toList "```"

/-- The opening fence with language tag `"```json"`. -/
def fenceJsonChars : List Char := String.toList "```json"

/-- The fence-stripping prelude of `_extract_json_from_response`
(lines 191-201): strip the response, then if a fenced block is present cut
out the text between the first opening fence (with or without the `json`
tag) and the following fence.  `str.index` raising `ValueError` when the
closing fence is missing is the `.error .valueError` case. -/
def stripFence (text : List Char) : Except AIFailure (List Char) :=
  let cleaned := pyStrip text
  match pyFindSub cleaned fenceJsonChars with
  | some i =>
    let start := i + fenceJsonChars.length
    match pyFindSub (cleaned.drop start) fenceChars with
    | some j => .ok (pyStrip ((cleaned.drop start).take j))
    | none => .error .valueError
  | none =>
    match pyFindSub cleaned fenceChars with
    | some i =>
      let start := i + fenceChars.length
      match pyFindSub (cleaned.drop start) fenceChars with
      | some j => .ok (pyStrip ((cleaned.drop start).take j))
      | none => .error .valueError
    | none => .ok cleaned

/-- `_extract_json_from_response` (lines 175-227): strip an optional fenced
block, locate the substring from the first `[` to the last `]` (its absence
is an `AIServiceError`), parse it with `json.loads` (failure is an
`AIServiceError`), and require the parsed value to be an array. -/
def extract_json_from_response (jsonParse : List Char → Option Json)
    (text : List Char) : Except AIFailure (List Json) :=
  match stripFence text with
  | .error e => .error e
  | .ok cleaned =>
    match pyFindChar cleaned '[', pyRFindChar cleaned ']' with
    | some bs, some be =>
      let json_str := (cleaned.drop bs).take (be + 1 - bs)
      match jsonParse json_str with
      | none => .error (.service "invalid JSON in AI response")
      | some (Json.arr xs) => .ok xs
      | some _ => .error (.service "AI returned a non-array value")
    | _, _ => .error (.service "AI response contains no JSON array")

/-- One classifier result row (`AIProductResult`). -/
structure AIProductResult where
  avito_id : String
  normalized_title : String
  product_category : String
  key_specs : String
deriving DecidableEq, Repr, Inhabited

/-- `_parse_ai_results` (lines 229-277): keep only dict items carrying all
four required fields, stringifying and stripping the field values;
malformed items are logged and skipped. -/
def parse_ai_results (raw_results : List Json) : List AIProductResult :=
  raw_results.filterMap (fun item =>
    match item with
    | .obj kvs =>
      match getField kvs "avito_id", getField kvs "normalized_title",
          getField kvs "product_category", getField kvs "key_specs" with
      | some a, some nt, some pc, some ks =>
        some
          { avito_id := jsonScalarStr a
            normalized_title := pyStripStr (jsonScalarStr nt)
            product_category := pyStripStr (jsonScalarStr pc)
            key_specs := pyStripStr (jsonScalarStr ks) }
      | _, _, _, _ => none
    | _ => none)

/-- One attempt's transport-level outcome: either `aiohttp` raised a
`ClientError`, or an HTTP response with a status and a parsed JSON body
arrived. -/
inductive HttpOutcome where
  | clientError
  | response (status : Nat) (body : List (String × Json))

/-- `choices[0].get("message", {}).get("content", "")` — the content string
of the first choice.  (Non-object messages and non-string contents, on
which the Python would raise further down, collapse to `""`; the claims
only exercise object/string shapes.) -/
def contentOfChoice (c0 : Json) : String :=
  match c0 with
  | .obj kvs =>
    match getField kvs "message" with
    | some (.obj m) =>
      match getField m "content" with
      | some (.str s) => s
      | _ => ""
    | _ => ""
  | _ => ""

/-- The body of `_do_request` (lines 341-383): a `ClientError` propagates;
a non-200 status, an empty/missing `choices` list and an empty `content`
each raise `AIServiceError`; otherwise the content string is returned. -/
def do_request (o : HttpOutcome) : Except AIFailure String :=
  match o with
  | .clientError => .error .transport
  | .response status body =>
    if status ≠ 200 then .error (.service "AI API returned non-200 status")
    else
      match getField body "choices" with
      | some (Json.arr (c0 :: _)) =>
        let content := contentOfChoice c0
        if content = "" then .error (.service "AI API returned empty content")
        else .ok content
      | _ => .error (.service "AI API returned empty choices")

/-- Retry-relevant classifier settings (`AISettings`). -/
structure AICfg where
  maxRetries : Nat
  retryDelay : ℚ
  batchSize : Nat

/-- `_send_request`: `_do_request` wrapped in
`async_retry(max_retries, retry_delay, backoff_factor=2.0,
exceptions=(aiohttp.ClientError, AIServiceError))`.  Both modelled failure
classes are members of the exception tuple, so every `AIFailure` raised by
`_do_request` matches. -/
def send_request (cfg : AICfg) (env : Nat → HttpOutcome) :
    RetryOutcome AIFailure String × Nat × List ℚ :=
  async_retry cfg.maxRetries cfg.retryDelay 2 (fun _ => true)
    (fun i => do_request (env i))

/-- The `{avito_id, title, description}` dicts sent to the classifier. -/
structure AIRequestItem where
  avito_id : String
  title : String
  description : String
deriving DecidableEq, Repr

/-- `normalize_batch` (lines 279-320): an empty batch short-circuits to
`[]`; otherwise send the request (through the retry wrapper), extract the
JSON array from the response text and validate the result rows.  The
`noneReturn` outcome of a zero-retry wrapper flows into
`_extract_json_from_response(None)`, which would raise; it is surfaced as
`.error .noneResponse`. -/
def normalize_batch (jsonParse : List Char → Option Json) (cfg : AICfg)
    (env : Nat → HttpOutcome) (products : List AIRequestItem) :
    Except AIFailure (List AIProductResult) :=
  if products.isEmpty then .ok []
  else
    match (send_request cfg env).1 with
    | .noneReturn => .error .noneResponse
    | .err e => .error e
    | .ok text =>
      match extract_json_from_response jsonParse text.toList with
      | .error e => .error e
      | .ok raws => .ok (parse_ai_results raws)

/-! ### Normalizer service (src/services/normalizer_service.py) -/

/-- `_prepare_for_ai`: project each raw product to the classifier request
fields, truncating the description to 500 characters. -/
def prepare_for_ai (products : List RawProduct) : List AIRequestItem :=
  products.map (fun p =>
    { avito_id := p.avito_id
      title := p.title
      description := p.description.take 500 })

/-- The dict comprehension `{p.avito_id: p for p in raw_products}` followed
by `.get`: the last product with the requested id, if any. -/
def rawIndexGet (raw_products : List RawProduct) (id : String) :
    Option RawProduct :=
  raw_products.reverse.find? (fun p => p.avito_id = id)

/-- `_map_results_to_products` (lines 195-246): for each classifier result,
look up the source product by id (results with no match are logged and
discarded) and merge via `raw_to_normalized`; batch members with no
matching result simply produce nothing. -/
def map_results_to_products (raw_products : List RawProduct)
    (ai_results : List AIProductResult) (now : Nat) :
    List NormalizedProduct :=
  ai_results.filterMap (fun result =>
    (rawIndexGet raw_products result.avito_id).map (fun raw =>
      raw_to_normalized raw result.normalized_title
        result.product_category result.key_specs now))

/-- `_split_into_batches`: slices of `batchSize` in order.  (The Python
`range` step must be positive; a zero batch size yields no batches.) -/
def split_into_batches (bs : Nat) (l : List RawProduct) :
    List (List RawProduct) :=
  if h : bs = 0 ∨ l = [] then []
  else l.take bs :: split_into_batches bs (l.drop bs)
termination_by l.length
decreasing_by
  simp only [not_or] at h
  have hbs : 0 < bs := Nat.pos_of_ne_zero h.1
  have hl : 0 < l.length := List.length_pos.mpr h.2
  simpa using Nat.sub_lt hl hbs

/-- A Python exception escaping `_process_batch` (it catches only
`AIServiceError`). -/
structure UncaughtError where
  failure : AIFailure
deriving DecidableEq, Repr

/-- `_process_batch` (lines 129-170): build the request items, call
`normalize_batch`; an `AIServiceError` is logged and absorbed as an empty
result with the store untouched; any other exception propagates; on
success map the results back and save the non-empty outcome. -/
def process_batch (jsonParse : List Char → Option Json) (cfg : AICfg)
    (respond : List AIRequestItem → Nat → HttpOutcome) (now : Nat)
    (db : List NormalizedProduct) (batch : List RawProduct) :
    Except UncaughtError (List NormalizedProduct × List NormalizedProduct) :=
  let items := prepare_for_ai batch
  match normalize_batch jsonParse cfg (respond items) items with
  | .error (.service _) => .ok ([], db)
  | .error e => .error ⟨e⟩
  | .ok results =>
    let normalized := map_results_to_products batch results now
    let db' := if normalized.isEmpty then db
               else save_normalized_products db normalized
    .ok (normalized, db')

/-- The batch loop of `normalize_all`: process batches sequentially,
accumulating results; an uncaught exception aborts the run. -/
def process_batches (jsonParse : List Char → Option Json) (cfg : AICfg)
    (respond : List AIRequestItem → Nat → HttpOutcome) (now : Nat)
    (db : List NormalizedProduct) :
    List (List RawProduct) →
    Except UncaughtError (List NormalizedProduct × List NormalizedProduct)
  | [] => .ok ([], db)
  | batch :: rest =>
    match process_batch jsonParse cfg respond now db batch with
    | .error e => .error e
    | .ok (normalized, db') =>
      match process_batches jsonParse cfg respond now db' rest with
      | .error e => .error e
      | .ok (tail, dbf) => .ok (normalized ++ tail, dbf)

/-- `normalize_all`: split the not-yet-normalized products into batches and
process them sequentially (rate-limit sleeps have no observable effect). -/
def normalize_all (jsonParse : List Char → Option Json) (cfg : AICfg)
    (respond : List AIRequestItem → Nat → HttpOutcome) (now : Nat)
    (raw_products : List RawProduct) (db : List NormalizedProduct) :
    Except UncaughtError (List NormalizedProduct × List NormalizedProduct) :=
  process_batches jsonParse cfg respond now db
    (split_into_batches cfg.batchSize raw_products)

/-! ### Export service (src/services/export_service.py) -/

/-- One spreadsheet cell (string or integer, as `_product_to_row`
produces). -/
inductive Cell where
  | str (s : String)
  | int (n : Int)
deriving DecidableEq, Repr

/-- The fixed column headers of `REPORT_COLUMNS`, in order. -/
def REPORT_COLUMN_TITLES : List String :=
  ["Нормализованное название", "Категория", "Характеристики",
   "Цена (руб.)", "Оригинальное название", "Продавец",
   "Рейтинг продавца", "Отзывы", "Ссылка", "Описание", "Дата парсинга"]

/-- `_product_to_row`: the data cells of one row, in `REPORT_COLUMNS`
order; the description is truncated to 200 characters and the capture
timestamp rendered through the date formatter `fmt`
(`strftime("%Y-%m-%d %H:%M")`). -/
def product_to_row (fmt : Nat → String) (p : NormalizedProduct) :
    List Cell :=
  [.str p.normalized_title, .str p.product_category, .str p.key_specs,
   .int p.price, .str p.original_title, .str p.seller_name,
   .str p.seller_rating, .str p.seller_reviews, .str p.full_url,
   .str (p.description.take 200), .str (fmt p.scraped_at)]

/-- `ExportService.export`: read all normalized products; with nothing to
export return `""` and write nothing; otherwise write the header row and
one data row per product and return the output path. -/
def export_products (fmt : Nat → String)
    (products : List NormalizedProduct) (exportPath : String) :
    String × List (List Cell) :=
  if products.isEmpty then ("", [])
  else
    (exportPath,
      REPORT_COLUMN_TITLES.map Cell.str ::
        products.map (product_to_row fmt))

/-- Invariant of one crawl run tying the stored batches, the seen-id set
and the extracted pages together: the stored ids are duplicate-free, they
are exactly the seen-id set, and the seen-id set is exactly the set of ids
appearing on the extracted pages. -/
def goodState (s : CrawlState) : Prop :=
  (idsOf s.storedBatches.flatten).Nodup
  ∧ (∀ a, a ∈ idsOf s.storedBatches.flatten ↔ a ∈ s.seen)
  ∧ s.seen = (idsOf s.extractedPages.flatten).toFinset

/-! ### Concrete fixtures

Small concrete catalogs, states and responses used to instantiate the
claim theorems on executable inputs. -/

deriving instance DecidableEq for Except

/-- Fixture product `a`. -/
def prodA : RawProduct :=
  { avito_id := "a", title := "Ta", price := 100, url := "/a" }

/-- Fixture product `a` re-scraped with different field values. -/
def prodA2 : RawProduct :=
  { avito_id := "a", title := "Ta2", price := 200, url := "/a2"
    scraped_at := 7 }

/-- Fixture product `b`. -/
def prodB : RawProduct :=
  { avito_id := "b", title := "Tb", price := 50, url := "/b" }

/-- Fixture category URL (path `/c`, no query parameters). -/
def url1 : Url := ⟨"/c", []⟩

/-- One-page fixture catalog: a single page with products `a` and `b`, no
further pagination button. -/
def oneCat : Catalog :=
  { parsePage := fun _ => [prodA, prodB]
    nextBtn := fun _ _ => none
    detectTotal := fun _ => 0
    navOk := fun _ => true }

/-- The final crawl state of `scrape_all oneCat url1 1 2`. -/
def c3Final : CrawlState :=
  { url := url1
    visited := {"/c?p=1"}
    seen := {"b", "a"}
    totalPages := 0
    pageNum := 1
    emptyCount := 0
    storedBatches := [[prodA, prodB]]
    allProducts := [prodA, prodB]
    extractedPages := [[prodA, prodB]]
    transitions := 0
    inserts := 0 }

/-- The page-1 URL of the cyclic fixture catalog. -/
def cycleUrl1 : Url := ⟨"/cat", [("p", "1")]⟩

/-- A product living on the cyclic catalog's page. -/
def cycleProd : RawProduct :=
  { avito_id := "x", title := "Tx", price := 5, url := "/x" }

/-- Cyclic fixture catalog: every page's "next page" button points back to
page 1. -/
def cycleCatalog : Catalog :=
  { parsePage := fun _ => [cycleProd]
    nextBtn := fun _ _ => some cycleUrl1
    detectTotal := fun _ => 0
    navOk := fun _ => true }

/-- The final crawl state of `scrape_all cycleCatalog cycleUrl1 0 1`: the
page-1 products were stored once and the next-page cycle was detected
before any transition. -/
def cycleFinal : CrawlState :=
  { url := cycleUrl1
    visited := {"/cat?p=1"}
    seen := {"x"}
    totalPages := 0
    pageNum := 1
    emptyCount := 0
    storedBatches := [[cycleProd]]
    allProducts := [cycleProd]
    extractedPages := [[cycleProd]]
    transitions := 0
    inserts := 0 }

/-- Nine already-seen fixture products `d1` … `d9`. -/
def dupProducts : List RawProduct :=
  ["d1", "d2", "d3", "d4", "d5", "d6", "d7", "d8", "d9"].map (fun i =>
    { avito_id := i, title := "Td", price := 1, url := "/d" })

/-- The one fresh product on the high-duplicate fixture page. -/
def freshProd : RawProduct :=
  { avito_id := "n1", title := "Tn", price := 2, url := "/n" }

/-- Fixture catalog whose single page carries nine duplicates and one fresh
product. -/
def cat4 : Catalog :=
  { parsePage := fun _ => dupProducts ++ [freshProd]
    nextBtn := fun u _ => some ⟨u.path, [("p", "99")]⟩
    detectTotal := fun _ => 0
    navOk := fun _ => true }

/-- Mid-crawl fixture state: products `d1` … `d9` already seen. -/
def s4 : CrawlState :=
  { url := url1
    visited := {"/c?p=1"}
    seen := {"d1", "d2", "d3", "d4", "d5", "d6", "d7", "d8", "d9"}
    totalPages := 0
    pageNum := 4
    emptyCount := 0
    storedBatches := [[prodA]]
    allProducts := [prodA]
    extractedPages := [[prodA]]
    transitions := 3
    inserts := 3 }

/-- The final state after the duplicate-ratio stop on the fixture page. -/
def final4 : CrawlState :=
  { url := url1
    visited := {"/c?p=1"}
    seen := {"n1", "d1", "d2", "d3", "d4", "d5", "d6", "d7", "d8", "d9"}
    totalPages := 0
    pageNum := 4
    emptyCount := 0
    storedBatches := [[prodA], [freshProd]]
    allProducts := [prodA, freshProd]
    extractedPages := [[prodA], dupProducts ++ [freshProd]]
    transitions := 3
    inserts := 3 }

/-- A trivial instantiation of the abstract `json.loads`: every string is a
parse failure. -/
def jsonParseNone : List Char → Option Json := fun _ => none

/-- An instantiation of the abstract `json.loads` that recognises exactly
the two-element array `[1, 2]` and nothing else. -/
def jsonParseArr : List Char → Option Json := fun s =>
  if s = String.toList "[1, 2]" then some (Json.arr [Json.num 1, Json.num 2])
  else none

/-- Fixture classifier settings: one attempt, unit delay, batch size 10. -/
def cfg0 : AICfg := { maxRetries := 1, retryDelay := 1, batchSize := 10 }

/-- Fixture classifier settings with two attempts. -/
def cfg9 : AICfg := { maxRetries := 2, retryDelay := 1, batchSize := 10 }

/-- A well-shaped 200-response body carrying the given content string. -/
def okBody (content : String) : List (String × Json) :=
  [("choices",
    Json.arr [Json.obj [("message", Json.obj [("content",
      Json.str content)])]])]

/-- Fixture responder: every batch and attempt yields a well-shaped 200
response whose content has no JSON array in it. -/
def respond0 : List AIRequestItem → Nat → HttpOutcome :=
  fun _ _ => .response 200 (okBody "no array here")

/-- Fixture response environment for retries: attempt 1 is a 500, later
attempts succeed with a bracketless content. -/
def env9 : Nat → HttpOutcome := fun i =>
  if i = 1 then .response 500 [] else .response 200 (okBody "payload")

/-- Fixture response environment whose every attempt is a 500. -/
def envBad : Nat → HttpOutcome := fun _ => .response 500 []

/-- Fixture wrapped operation for the retry claim: attempts 1 and 2 raise,
attempt 3 and later return 42. -/
def op8 : Nat → Except String Nat := fun i =>
  if i < 3 then .error "boom" else .ok 42

/-- Fixture classifier result matching product `a`. -/
def resultA : AIProductResult :=
  { avito_id := "a", normalized_title := "NT", product_category := "Cat"
    key_specs := "KS" }

/-- Fixture classifier result matching no batch member. -/
def resultZ : AIProductResult :=
  { avito_id := "z", normalized_title := "NZ", product_category := "CZ"
    key_specs := "KZ" }

/-- Fixture card whose title link has no `href`. -/
def cardNoHref : Card :=
  { dataItemId := some "1001"
    titleEl := some ("Ноутбук", none)
    priceContent := none
    descContent := none
    imageSrc := none }

/-- The product `_parse_single_card` produces from `cardNoHref`: note the
empty `url`. -/
def prodNoUrl : RawProduct :=
  { avito_id := "1001", title := "Ноутбук", price := 0, url := "" }

/-- Fixture normalized product for the export claim. -/
def np10 : NormalizedProduct :=
  { avito_id := "a", original_title := "Ta", normalized_title := "NT"
    product_category := "Cat", key_specs := "KS", price := 100
    url := "/a", full_url := "https://www.avito.ru/a"
    description := "D", seller_name := "S", seller_rating := "4,9"
    seller_reviews := "12", scraped_at := 3, normalized_at := 5 }

/-- Fixture date formatter. -/
def fmt0 : Nat → String := fun _ => "2024-01-01 00:00"

/-! ## Helper lemmas: the upsert store -/

theorem mem_idsOf {db : List RawProduct} {a : String} :
    a ∈ idsOf db ↔ ∃ r ∈ db, r.avito_id = a := by
  simp [idsOf]

theorem any_id_eq {db : List RawProduct} {a : String} :
    (db.any (fun r => r.avito_id = a)) = true ↔ a ∈ idsOf db := by
  simp [List.any_eq_true, idsOf]

theorem idsOf_append (l₁ l₂ : List RawProduct) :
    idsOf (l₁ ++ l₂) = idsOf l₁ ++ idsOf l₂ := by
  simp [idsOf]

theorem idsOf_replace (db : List RawProduct) (p : RawProduct) :
    idsOf (db.map (fun r => if r.avito_id = p.avito_id then p else r))
      = idsOf db := by
  induction db with
  | nil => rfl
  | cons r db ih =>
    by_cases h : r.avito_id = p.avito_id <;> simp [idsOf, h] <;>
      simpa [idsOf] using ih

theorem idsOf_save_raw_product (db : List RawProduct) (p : RawProduct) :
    idsOf (save_raw_product db p)
      = if p.avito_id ∈ idsOf db then idsOf db
        else idsOf db ++ [p.avito_id] := by
  unfold save_raw_product
  by_cases h : p.avito_id ∈ idsOf db
  · rw [if_pos (any_id_eq.mpr h), if_pos h, idsOf_replace]
  · rw [if_neg (fun hc => h (any_id_eq.mp hc)), if_neg h, idsOf_append]
    rfl

theorem length_save_raw_product (db : List RawProduct) (p : RawProduct) :
    (save_raw_product db p).length
      = if p.avito_id ∈ idsOf db then db.length else db.length + 1 := by
  unfold save_raw_product
  by_cases h : p.avito_id ∈ idsOf db
  · rw [if_pos (any_id_eq.mpr h), if_pos h, List.length_map]
  · rw [if_neg (fun hc => h (any_id_eq.mp hc)), if_neg h,
      List.length_append]
    rfl

theorem mem_idsOf_save_raw_product (db : List RawProduct) (p : RawProduct) :
    p.avito_id ∈ idsOf (save_raw_product db p) := by
  rw [idsOf_save_raw_product]
  by_cases h : p.avito_id ∈ idsOf db <;> simp [h]

theorem nodup_idsOf_save_raw_product {db : List RawProduct}
    (p : RawProduct) (h : (idsOf db).Nodup) :
    (idsOf (save_raw_product db p)).Nodup := by
  rw [idsOf_save_raw_product]
  by_cases hm : p.avito_id ∈ idsOf db
  · simpa [hm] using h
  · simp only [hm, if_false]
    simpa [List.nodup_append, List.Disjoint] using ⟨h, fun a ha he => hm (he ▸ ha)⟩

theorem nodup_idsOf_save_raw_products {db : List RawProduct}
    (ps : List RawProduct) (h : (idsOf db).Nodup) :
    (idsOf (save_raw_products db ps)).Nodup := by
  induction ps generalizing db with
  | nil => exact h
  | cons p ps ih => exact ih (nodup_idsOf_save_raw_product p h)

theorem filter_unique_of_nodup {db : List RawProduct} {a : String}
    (h : (idsOf db).Nodup) (hm : a ∈ idsOf db) :
    ∃ r, db.filter (fun x => x.avito_id = a) = [r] ∧ r.avito_id = a := by
  induction db with
  | nil => simp [idsOf] at hm
  | cons r db ih =>
    simp only [idsOf, List.map_cons, List.nodup_cons] at h
    by_cases hr : r.avito_id = a
    · refine ⟨r, ?_, hr⟩
      have hnone : ∀ x ∈ db, x.avito_id ≠ a := by
        intro x hx he
        exact h.1 (by simpa [idsOf, ← hr, he] using List.mem_map_of_mem RawProduct.avito_id hx)
      simp only [List.filter_cons, hr, decide_True, if_true]
      have : db.filter (fun x => x.avito_id = a) = [] :=
        List.filter_eq_nil.mpr (by intro x hx; simpa using hnone x hx)
      simp [this]
    · have hm' : a ∈ idsOf db := by
        rcases mem_idsOf.mp hm with ⟨x, hx, he⟩
        rcases List.mem_cons.mp hx with h1 | h2
        · exact absurd (h1 ▸ he) hr
        · exact mem_idsOf.mpr ⟨x, h2, he⟩
      obtain ⟨x, hfx, hxa⟩ := ih h.2 hm'
      exact ⟨x, by simp [List.filter_cons, hr, hfx], hxa⟩

theorem filter_save_raw_product {db : List RawProduct} (p : RawProduct)
    (h : (idsOf db).Nodup) :
    (save_raw_product db p).filter (fun r => r.avito_id = p.avito_id)
      = [p] := by
  unfold save_raw_product
  by_cases hm : p.avito_id ∈ idsOf db
  · rw [if_pos (any_id_eq.mpr hm)]
    rw [List.filter_map]
    obtain ⟨r, hfr, hra⟩ : ∃ r,
        db.filter (fun x => x.avito_id = p.avito_id) = [r]
          ∧ r.avito_id = p.avito_id := filter_unique_of_nodup h hm
    have hcong :
        db.filter (fun x =>
            decide ((if x.avito_id = p.avito_id then p else x).avito_id
              = p.avito_id))
          = db.filter (fun x => x.avito_id = p.avito_id) := by
      apply List.filter_congr
      intro x _
      by_cases hx : x.avito_id = p.avito_id <;> simp [hx]
    calc (db.filter (((fun r => decide (r.avito_id = p.avito_id)) ∘
              fun r => if r.avito_id = p.avito_id then p else r))).map
            (fun r => if r.avito_id = p.avito_id then p else r)
        = (db.filter (fun x => x.avito_id = p.avito_id)).map
            (fun r => if r.avito_id = p.avito_id then p else r) := by
          rw [show ((fun r => decide (r.avito_id = p.avito_id)) ∘
              fun r => if r.avito_id = p.avito_id then p else r)
            = fun x => decide ((if x.avito_id = p.avito_id then p
                else x).avito_id = p.avito_id) from rfl, hcong]
      _ = [p] := by rw [hfr]; simp [hra]
  · rw [if_neg (fun hc => hm (any_id_eq.mp hc)), List.filter_append]
    have h1 : db.filter (fun r => r.avito_id = p.avito_id) = [] := by
      apply List.filter_eq_nil.mpr
      intro x hx
      simp only [decide_eq_true_eq]
      exact fun he => hm (mem_idsOf.mpr ⟨x, hx, he⟩)
    simp [h1]

theorem save_raw_products_of_fresh {db ps : List RawProduct}
    (hfresh : ∀ p ∈ ps, p.avito_id ∉ idsOf db)
    (hnodup : (idsOf ps).Nodup) :
    save_raw_products db ps = db ++ ps := by
  induction ps generalizing db with
  | nil => simp [save_raw_products]
  | cons p ps ih =>
    have hp : p.avito_id ∉ idsOf db := hfresh p (by simp)
    have hstep : save_raw_product db p = db ++ [p] := by
      unfold save_raw_product
      rw [if_neg (fun hc => hp (any_id_eq.mp hc))]
    have hfresh' : ∀ q ∈ ps, q.avito_id ∉ idsOf (db ++ [p]) := by
      intro q hq
      rw [idsOf_append]
      intro hmem
      rcases List.mem_append.mp hmem with h1 | h2
      · exact hfresh q (by simp [hq]) h1
      · simp only [idsOf, List.map_cons, List.map_nil,
          List.mem_singleton] at h2
        have : p.avito_id ∈ idsOf ps := mem_idsOf.mpr ⟨q, hq, h2⟩
        simp only [idsOf, List.map_cons, List.nodup_cons] at hnodup
        exact hnodup.1 (by simpa [idsOf] using this)
    have hnodup' : (idsOf ps).Nodup := by
      simp only [idsOf, List.map_cons, List.nodup_cons] at hnodup
      exact hnodup.2
    calc save_raw_products db (p :: ps)
        = save_raw_products (db ++ [p]) ps := by
          simp [save_raw_products, hstep]
      _ = (db ++ [p]) ++ ps := ih hfresh' hnodup'
      _ = db ++ (p :: ps) := by simp

/-! ## Claim C2 -/

/-- C2: storing a raw listing twice with the same `avito_id` but different
field values — directly or through the batch writer, which performs the
same upsert row by row — leaves exactly one stored record carrying the
later save's fields, leaves the record count unchanged by the second save,
and the store never contains two raw listings with the same `avito_id`
(single and batch saves both preserve key uniqueness). -/
theorem C2_idempotent_upsert (db : List RawProduct) (p q : RawProduct)
    (hid : q.avito_id = p.avito_id) (hnodup : (idsOf db).Nodup) :
    ((save_raw_product (save_raw_product db p) q).filter
        (fun r => r.avito_id = q.avito_id) = [q])
    ∧ (save_raw_product (save_raw_product db p) q).length
        = (save_raw_product db p).length
    ∧ (idsOf (save_raw_product (save_raw_product db p) q)).Nodup
    ∧ (∀ ps, (idsOf (save_raw_products db ps)).Nodup)
    ∧ save_raw_products db [p, q]
        = save_raw_product (save_raw_product db p) q := by
  have hnodup1 : (idsOf (save_raw_product db p)).Nodup :=
    nodup_idsOf_save_raw_product p hnodup
  refine ⟨filter_save_raw_product q hnodup1, ?_, ?_, ?_, rfl⟩
  · rw [length_save_raw_product,
      if_pos (hid ▸ mem_idsOf_save_raw_product db p)]
  · exact nodup_idsOf_save_raw_product q hnodup1
  · intro ps
    exact nodup_idsOf_save_raw_products ps hnodup

/-- C2 witness: the two saves of product `a` on an empty store evaluated
concretely. -/
theorem C2_idempotent_upsert_witness :
    (prodA2.avito_id = prodA.avito_id ∧ (idsOf []).Nodup)
    ∧ ((save_raw_product (save_raw_product [] prodA) prodA2).filter
          (fun r => r.avito_id = prodA2.avito_id) = [prodA2])
    ∧ (save_raw_product (save_raw_product [] prodA) prodA2).length
        = (save_raw_product [] prodA).length
    ∧ (idsOf (save_raw_product (save_raw_product [] prodA) prodA2)).Nodup
    ∧ (∀ ps, (idsOf (save_raw_products [] ps)).Nodup)
    ∧ save_raw_products [] [prodA, prodA2]
        = save_raw_product (save_raw_product [] prodA) prodA2 := by
  have h := C2_idempotent_upsert [] prodA prodA2 (by decide) (by decide)
  exact ⟨⟨by decide, by decide⟩, h.1, h.2.1, h.2.2.1, h.2.2.2.1, h.2.2.2.2⟩

/-! ## Claim C10 -/

/-- C10: `export` consumes all stored normalized listings, producing one
sheet with a header row followed by one data row per listing whose cells
appear in the fixed order — normalized title, category, key specs, price,
original title, seller name, seller rating, seller reviews, absolute URL,
description truncated to 200 characters, capture date — and returns the
output path, or an empty result when there is nothing to export. -/
theorem C10_export_columns (fmt : Nat → String)
    (products : List NormalizedProduct) (path : String) :
    (products ≠ [] →
      (export_products fmt products path).1 = path
      ∧ (export_products fmt products path).2
          = REPORT_COLUMN_TITLES.map Cell.str
              :: products.map (product_to_row fmt)
      ∧ (export_products fmt products path).2.length
          = products.length + 1)
    ∧ export_products fmt [] path = ("", [])
    ∧ (∀ p, product_to_row fmt p
        = [.str p.normalized_title, .str p.product_category,
           .str p.key_specs, .int p.price, .str p.original_title,
           .str p.seller_name, .str p.seller_rating,
           .str p.seller_reviews, .str p.full_url,
           .str (p.description.take 200), .str (fmt p.scraped_at)])
    ∧ (∀ p, (product_to_row fmt p).length = REPORT_COLUMN_TITLES.length) := by
  refine ⟨fun hne => ?_, by simp [export_products], fun p => rfl,
    fun p => rfl⟩
  have h : products.isEmpty = false := by
    simpa [List.isEmpty_iff] using hne
  refine ⟨?_, ?_, ?_⟩ <;> simp [export_products, h]

/-- C10 witness: export of one fixture listing. -/
theorem C10_export_columns_witness :
    (([np10] : List NormalizedProduct) ≠ [])
    ∧ (export_products fmt0 [np10] "out.xlsx").1 = "out.xlsx"
    ∧ (export_products fmt0 [np10] "out.xlsx").2
        = REPORT_COLUMN_TITLES.map Cell.str
            :: [np10].map (product_to_row fmt0)
    ∧ export_products fmt0 [] "out.xlsx" = ("", []) := by
  have h := C10_export_columns fmt0 [np10] "out.xlsx"
  have hne : ([np10] : List NormalizedProduct) ≠ [] := by decide
  exact ⟨hne, (h.1 hne).1, (h.1 hne).2.1, h.2.1⟩

/-! ## Claim C5 (corrected) -/

/-- C5 counterexample: a card with an id and a title whose link carries no
`href` is NOT dropped — `_parse_single_card` falls back to `url = ""` and
returns the product, so extraction does not guarantee a non-empty URL. -/
theorem C5_counterexample :
    parse_single_card cardNoHref 0 = some prodNoUrl
    ∧ prodNoUrl.url = ""
    ∧ parse_current_page [cardNoHref] 0 = [prodNoUrl] := by
  refine ⟨?_, rfl, ?_⟩ <;> rfl

/-- C5 (amended): every listing produced by page extraction has a non-empty
`avito_id` and a non-empty title, and a card missing its `data-item-id` or
whose stripped title text is empty is dropped; the URL field, however, is
the title link's `href` with an empty-string fallback, so it is not
guaranteed non-empty. -/
theorem C5_extraction_invariant (cards : List Card) (now : Nat) :
    (∀ p ∈ parse_current_page cards now, p.avito_id ≠ "" ∧ p.title ≠ "")
    ∧ (∀ c : Card, (c.dataItemId = none ∨ c.dataItemId = some "") →
        parse_single_card c now = none)
    ∧ (∀ c : Card, ∀ s : String, c.dataItemId = some s →
        (c.titleEl = none
          ∨ ∃ txt href, c.titleEl = some (txt, href)
              ∧ pyStripStr txt = "") →
        parse_single_card c now = none) := by
  refine ⟨?_, ?_, ?_⟩
  · intro p hp
    obtain ⟨c, _, hc⟩ := List.mem_filterMap.mp hp
    unfold parse_single_card at hc
    by_cases hid : c.dataItemId.getD "" = ""
    · simp [hid] at hc
    · simp only [hid, if_false] at hc
      by_cases ht : (match c.titleEl with
          | some (txt, href) => (pyStripStr txt, href.getD "")
          | none => ("", "")).1 = ""
      · simp [ht] at hc
      · simp only [ht, if_false, Option.some.injEq] at hc
        constructor
        · intro he
          exact hid (by rw [← hc] at he; exact he)
        · intro he
          exact ht (by rw [← hc] at he; exact he)
  · intro c hc
    unfold parse_single_card
    rcases hc with h | h <;> simp [h]
  · intro c s _ ht
    unfold parse_single_card
    rcases ht with h | ⟨txt, href, he, htrim⟩
    · simp [h]
    · by_cases hid : c.dataItemId.getD "" = ""
      · simp [hid]
      · simp [hid, he, htrim]

/-- C5 witness: extraction applied to three concrete cards — one missing
the id, one with a blank title, one complete. -/
theorem C5_extraction_invariant_witness :
    (∀ p ∈ parse_current_page [cardNoHref] 0,
        p.avito_id ≠ "" ∧ p.title ≠ "")
    ∧ parse_single_card
        { dataItemId := none, titleEl := some ("T", some "/t")
          priceContent := none, descContent := none, imageSrc := none } 0
        = none
    ∧ parse_single_card
        { dataItemId := some "7", titleEl := some ("  ", some "/t")
          priceContent := none, descContent := none, imageSrc := none } 0
        = none := by
  refine ⟨(C5_extraction_invariant [cardNoHref] 0).1, ?_, ?_⟩
  · exact (C5_extraction_invariant [] 0).2.1 _ (Or.inl rfl)
  · exact (C5_extraction_invariant [] 0).2.2 _ "7" rfl
      (Or.inr ⟨"  ", some "/t", rfl, by decide⟩)

/-! ## Helper lemmas: result-to-source mapping -/

theorem rawIndexGet_spec {batch : List RawProduct} {a : String}
    {raw : RawProduct} (h : rawIndexGet batch a = some raw) :
    raw ∈ batch ∧ raw.avito_id = a := by
  unfold rawIndexGet at h
  refine ⟨List.mem_reverse.mp (List.mem_of_find?_eq_some h), ?_⟩
  have := List.find?_some h
  simpa using this

theorem rawIndexGet_isSome {batch : List RawProduct} {a : String}
    (h : ∃ p ∈ batch, p.avito_id = a) :
    (rawIndexGet batch a).isSome := by
  unfold rawIndexGet
  rw [List.find?_isSome]
  obtain ⟨p, hp, he⟩ := h
  exact ⟨p, List.mem_reverse.mpr hp, by simpa using he⟩

theorem length_filterMap_of_isSome {α β : Type} {f : α → Option β} :
    ∀ {l : List α}, (∀ x ∈ l, (f x).isSome) →
      (l.filterMap f).length = l.length := by
  intro l
  induction l with
  | nil => intro _; rfl
  | cons x l ih =>
    intro h
    obtain ⟨b, hb⟩ := Option.isSome_iff_exists.mp (h x (by simp))
    rw [List.filterMap_cons, hb, List.length_cons,
      ih (fun y hy => h y (by simp [hy]))]
    rfl

/-! ## Claim C6 -/

/-- C6: mapping a classifier result list back onto a batch of raw listings
produces one normalized listing per result whose id occurs in the batch —
so exactly `|S|` listings when the (duplicate-free) results cover the
subset `S` of batch ids — each linked to a batch member with the same
`avito_id` and carrying that member's price, url, description, image,
seller fields and `scraped_at` verbatim; results matching no batch member
are discarded, and batch members with no matching result yield nothing. -/
theorem C6_normalization_matching (batch : List RawProduct)
    (results : List AIProductResult) (now : Nat) :
    ((∀ r ∈ results, ∃ p ∈ batch, p.avito_id = r.avito_id) →
      (map_results_to_products batch results now).length = results.length)
    ∧ (∀ n ∈ map_results_to_products batch results now,
        ∃ raw ∈ batch, raw.avito_id = n.avito_id
          ∧ n.price = raw.price ∧ n.url = raw.url
          ∧ n.description = raw.description
          ∧ n.image_url = raw.image_url
          ∧ n.seller_name = raw.seller_name
          ∧ n.seller_rating = raw.seller_rating
          ∧ n.seller_reviews = raw.seller_reviews
          ∧ n.scraped_at = raw.scraped_at
          ∧ n.normalized_at = now)
    ∧ (∀ n ∈ map_results_to_products batch results now,
        ∃ r ∈ results, r.avito_id = n.avito_id
          ∧ n.normalized_title = r.normalized_title
          ∧ n.product_category = r.product_category
          ∧ n.key_specs = r.key_specs)
    ∧ (∀ p ∈ batch, (∀ r ∈ results, r.avito_id ≠ p.avito_id) →
        ∀ n ∈ map_results_to_products batch results now,
          n.avito_id ≠ p.avito_id) := by
  refine ⟨?_, ?_, ?_, ?_⟩
  · intro hcover
    apply length_filterMap_of_isSome
    intro r hr
    obtain ⟨raw, hraw⟩ :=
      Option.isSome_iff_exists.mp (rawIndexGet_isSome (hcover r hr))
    simp [hraw]
  · intro n hn
    obtain ⟨r, _, hr⟩ := List.mem_filterMap.mp hn
    obtain ⟨raw, hget, heq⟩ := Option.map_eq_some'.mp hr
    obtain ⟨hmem, hid⟩ := rawIndexGet_spec hget
    refine ⟨raw, hmem, ?_⟩
    rw [← heq]
    simp [raw_to_normalized]
  · intro n hn
    obtain ⟨r, hrmem, hr⟩ := List.mem_filterMap.mp hn
    obtain ⟨raw, hget, heq⟩ := Option.map_eq_some'.mp hr
    obtain ⟨_, hid⟩ := rawIndexGet_spec hget
    refine ⟨r, hrmem, ?_⟩
    rw [← heq]
    simp [raw_to_normalized, hid]
  · intro p _ hnone n hn he
    obtain ⟨r, hrmem, hr⟩ := List.mem_filterMap.mp hn
    obtain ⟨raw, hget, heq⟩ := Option.map_eq_some'.mp hr
    obtain ⟨_, hid⟩ := rawIndexGet_spec hget
    apply hnone r hrmem
    rw [← he, ← heq]
    simpa [raw_to_normalized] using hid.symm

/-- C6 witness: a two-element batch, one matching result, one dangling
result; exactly one normalized listing comes out, carrying product `a`'s
fields. -/
theorem C6_normalization_matching_witness :
    ((∀ r ∈ [resultA], ∃ p ∈ [prodA, prodB], p.avito_id = r.avito_id) →
      (map_results_to_products [prodA, prodB] [resultA] 9).length
        = [resultA].length)
    ∧ (map_results_to_products [prodA, prodB] [resultA] 9).length = 1
    ∧ map_results_to_products [prodA, prodB] [resultA, resultZ] 9
        = map_results_to_products [prodA, prodB] [resultA] 9
    ∧ (∀ n ∈ map_results_to_products [prodA, prodB] [resultA] 9,
        ∃ raw ∈ [prodA, prodB], raw.avito_id = n.avito_id
          ∧ n.price = raw.price ∧ n.url = raw.url
          ∧ n.description = raw.description
          ∧ n.image_url = raw.image_url
          ∧ n.seller_name = raw.seller_name
          ∧ n.seller_rating = raw.seller_rating
          ∧ n.seller_reviews = raw.seller_reviews
          ∧ n.scraped_at = raw.scraped_at
          ∧ n.normalized_at = 9) := by
  refine ⟨(C6_normalization_matching [prodA, prodB] [resultA] 9).1,
    by decide, by decide,
    (C6_normalization_matching [prodA, prodB] [resultA] 9).2.1⟩

/-! ## Helper lemmas: the retry loop -/

theorem cons_delay_map (d b : ℚ) (f : Nat) :
    d :: (List.range f).map (fun j => d * b * b ^ j)
      = (List.range (f + 1)).map (fun j => d * b ^ j) := by
  rw [List.range_succ_eq_map, List.map_cons, List.map_map]
  congr 1
  · simp
  · apply List.map_congr_left
    intro j _
    simp [Function.comp, pow_succ]
    ring

theorem retryGo_success {E A : Type} (op : Nat → Except E A)
    (retriable : E → Bool) (b : ℚ) (a : A) :
    ∀ (f rem attempt : Nat) (d : ℚ) (es : Nat → E),
      f < rem →
      (∀ j < f, op (attempt + j) = .error (es j)
        ∧ retriable (es j) = true) →
      op (attempt + f) = .ok a →
      retryGo op retriable b rem attempt d
        = (.ok a, f + 1, (List.range f).map (fun j => d * b ^ j)) := by
  intro f
  induction f with
  | zero =>
    intro rem attempt d es hrem _ hok
    obtain ⟨rem', rfl⟩ := Nat.exists_eq_succ_of_ne_zero
      (Nat.pos_iff_ne_zero.mp hrem)
    rw [show attempt + 0 = attempt from rfl] at hok
    rw [retryGo, hok]
    rfl
  | succ f ih =>
    intro rem attempt d es hrem hfail hok
    obtain ⟨rem', rfl⟩ := Nat.exists_eq_succ_of_ne_zero
      (Nat.pos_iff_ne_zero.mp (Nat.lt_of_le_of_lt (Nat.zero_le _) hrem))
    have h0 := hfail 0 (Nat.succ_pos f)
    rw [show attempt + 0 = attempt from rfl] at h0
    have hrem' : rem' ≠ 0 := by omega
    have hrec := ih rem' (attempt + 1) (d * b) (fun j => es (j + 1))
      (by omega)
      (fun j hj => by
        have := hfail (j + 1) (by omega)
        constructor
        · rw [show attempt + 1 + j = attempt + (j + 1) by omega]
          exact this.1
        · exact this.2)
      (by rw [show attempt + 1 + f = attempt + (f + 1) by omega]; exact hok)
    rw [retryGo, h0.1]
    simp only [h0.2, if_true, hrem', if_false, hrec,
      cons_delay_map d b f]

theorem retryGo_exhaust {E A : Type} (op : Nat → Except E A)
    (retriable : E → Bool) (b : ℚ) :
    ∀ (m attempt : Nat) (d : ℚ) (es : Nat → E),
      (∀ j ≤ m, op (attempt + j) = .error (es j)
        ∧ retriable (es j) = true) →
      retryGo op retriable b (m + 1) attempt d
        = (.err (es m), m + 1, (List.range m).map (fun j => d * b ^ j)) := by
  intro m
  induction m with
  | zero =>
    intro attempt d es hfail
    have h0 := hfail 0 (le_refl 0)
    rw [show attempt + 0 = attempt from rfl] at h0
    rw [retryGo, h0.1]
    simp [h0.2]
  | succ m ih =>
    intro attempt d es hfail
    have h0 := hfail 0 (Nat.zero_le _)
    rw [show attempt + 0 = attempt from rfl] at h0
    have hms : m + 1 ≠ 0 := Nat.succ_ne_zero m
    have hrec := ih (attempt + 1) (d * b) (fun j => es (j + 1))
      (fun j hj => by
        have := hfail (j + 1) (by omega)
        constructor
        · rw [show attempt + 1 + j = attempt + (j + 1) by omega]
          exact this.1
        · exact this.2)
    rw [retryGo, h0.1]
    simp only [h0.2, if_true, hms, if_false, hrec,
      cons_delay_map d b m]

theorem retryGo_nonmatching {E A : Type} (op : Nat → Except E A)
    (retriable : E → Bool) (b : ℚ) (e : E) (rem attempt : Nat) (d : ℚ)
    (he : op attempt = .error e) (hnr : retriable e = false) :
    retryGo op retriable b (rem + 1) attempt d = (.err e, 1, []) := by
  simp only [retryGo]
  rw [he]
  simp [hnr]

/-! ## Claim C8 -/

/-- C8: for `async_retry(max_retries = N, delay = d, backoff_factor = b)`:
a success at any attempt returns that attempt's result (after the earlier
matching failures were each retried, the `i`-th back-off sleep being
`d * b^(i-1)`); failures matching the configured exception classes are
retried while attempts remain — at most `N` attempts in total, within the
claim's "up to `N`" bound — and when the attempts are exhausted the last
attempt's failure is re-raised; a non-matching failure propagates at once.
-/
theorem C8_async_retry {E A : Type} (N : Nat) (d b : ℚ)
    (retriable : E → Bool) (op : Nat → Except E A) :
    (∀ (f : Nat) (a : A) (es : Nat → E), f < N →
      (∀ j < f, op (1 + j) = .error (es j) ∧ retriable (es j) = true) →
      op (1 + f) = .ok a →
      async_retry N d b retriable op
        = (.ok a, f + 1, (List.range f).map (fun j => d * b ^ j)))
    ∧ (∀ (m : Nat) (es : Nat → E), N = m + 1 →
      (∀ j ≤ m, op (1 + j) = .error (es j) ∧ retriable (es j) = true) →
      async_retry N d b retriable op
        = (.err (es m), m + 1, (List.range m).map (fun j => d * b ^ j)))
    ∧ (∀ e : E, op 1 = .error e → retriable e = false → 1 ≤ N →
      async_retry N d b retriable op = (.err e, 1, [])) := by
  refine ⟨?_, ?_, ?_⟩
  · intro f a es hf hfail hok
    exact retryGo_success op retriable b a f N 1 d es hf hfail hok
  · intro m es hN hfail
    subst hN
    exact retryGo_exhaust op retriable b m 1 d es hfail
  · intro e he hnr hN
    obtain ⟨N', rfl⟩ := Nat.exists_eq_succ_of_ne_zero
      (Nat.pos_iff_ne_zero.mp hN)
    exact retryGo_nonmatching op retriable b e N' 1 d he hnr

/-- C8 witness: `op8` fails on attempts 1 and 2 and succeeds from attempt
3 on; with 5 allowed attempts the third result is returned after two
back-off sleeps, and with only 2 allowed attempts the second failure is
re-raised. -/
theorem C8_async_retry_witness :
    ((2 : Nat) < 5
      ∧ (∀ j < 2, op8 (1 + j) = .error "boom"
          ∧ (fun (_ : String) => true) "boom" = true)
      ∧ op8 (1 + 2) = .ok 42)
    ∧ async_retry 5 1 2 (fun _ => true) op8
        = (.ok 42, 3, (List.range 2).map (fun j => (1 : ℚ) * 2 ^ j))
    ∧ async_retry 2 1 2 (fun _ => true) op8
        = (.err "boom", 2, (List.range 1).map (fun j => (1 : ℚ) * 2 ^ j)) := by
  refine ⟨⟨by decide, ?_, by decide⟩, ?_, ?_⟩
  · intro j hj
    interval_cases j <;> exact ⟨by decide, rfl⟩
  · exact (C8_async_retry 5 1 2 (fun _ => true) op8).1 2 42
      (fun _ => "boom") (by decide)
      (fun j hj => ⟨by interval_cases j <;> decide, rfl⟩) (by decide)
  · exact (C8_async_retry 2 1 2 (fun _ => true) op8).2.1 1
      (fun _ => "boom") rfl
      (fun j hj => ⟨by interval_cases j <;> decide, rfl⟩)

/-! ## Claim C7 -/

/-- C7: a classifier response that — after the optional fenced block is
stripped — contains no `[`/`]` pair, or whose first-`[`-to-last-`]`
substring is not valid JSON, fails the whole batch with `AIServiceError`:
`normalize_batch` raises it, `_process_batch` absorbs it returning an
empty result with the store untouched, and the batch loop continues with
the remaining batches exactly as if the failed batch were skipped. -/
theorem C7_malformed_response (jsonParse : List Char → Option Json)
    (cfg : AICfg)
    (respond : List AIRequestItem → Nat → HttpOutcome) (now : Nat) :
    (∀ (text cleaned : List Char), stripFence text = .ok cleaned →
      (pyFindChar cleaned '[' = none ∨ pyRFindChar cleaned ']' = none) →
      extract_json_from_response jsonParse text
        = .error (.service "AI response contains no JSON array"))
    ∧ (∀ (text cleaned : List Char) (bs be : Nat),
      stripFence text = .ok cleaned →
      pyFindChar cleaned '[' = some bs →
      pyRFindChar cleaned ']' = some be →
      jsonParse ((cleaned.drop bs).take (be + 1 - bs)) = none →
      extract_json_from_response jsonParse text
        = .error (.service "invalid JSON in AI response"))
    ∧ (∀ (items : List AIRequestItem) (env : Nat → HttpOutcome)
        (t m : String),
      items ≠ [] → (send_request cfg env).1 = .ok t →
      extract_json_from_response jsonParse t.toList = .error (.service m) →
      normalize_batch jsonParse cfg env items = .error (.service m))
    ∧ (∀ (db : List NormalizedProduct) (batch : List RawProduct)
        (m : String),
      normalize_batch jsonParse cfg (respond (prepare_for_ai batch))
          (prepare_for_ai batch) = .error (.service m) →
      process_batch jsonParse cfg respond now db batch = .ok ([], db))
    ∧ (∀ (db : List NormalizedProduct) (batch : List RawProduct)
        (rest : List (List RawProduct)) (m : String),
      normalize_batch jsonParse cfg (respond (prepare_for_ai batch))
          (prepare_for_ai batch) = .error (.service m) →
      process_batches jsonParse cfg respond now db (batch :: rest)
        = process_batches jsonParse cfg respond now db rest) := by
  refine ⟨?_, ?_, ?_, ?_, ?_⟩
  · intro text cleaned hstrip h
    simp only [extract_json_from_response, hstrip]
    rcases h with h | h
    · rw [h]
    · rw [h]
      cases pyFindChar cleaned '[' <;> rfl
  · intro text cleaned bs be hstrip hbs hbe hparse
    simp only [extract_json_from_response, hstrip, hbs, hbe, hparse]
  · intro items env t m hne hsend hext
    have hemp : items.isEmpty = false := by
      simpa [List.isEmpty_iff] using hne
    simp only [normalize_batch, hemp, Bool.false_eq_true, if_false,
      hsend, String.toList]
    rw [show t.toList = t.data from rfl] at hext
    rw [hext]
  · intro db batch m hnb
    simp only [process_batch, hnb]
  · intro db batch rest m hnb
    rw [process_batches, process_batch]
    simp only [hnb]
    cases h2 : process_batches jsonParse cfg respond now db rest with
    | error e => rfl
    | ok pr => simp

/-- C7 witness: a bracketless response text and an unparsable bracketed
text each fail extraction with `AIServiceError`; a batch receiving the
bracketless response is absorbed as an empty result (store untouched) and
the loop over batches continues. -/
theorem C7_malformed_response_witness :
    (stripFence (String.toList "no array here")
        = .ok (String.toList "no array here")
      ∧ pyFindChar (String.toList "no array here") '[' = none)
    ∧ extract_json_from_response jsonParseNone
        (String.toList "no array here")
        = .error (.service "AI response contains no JSON array")
    ∧ extract_json_from_response jsonParseNone (String.toList "[oops]")
        = .error (.service "invalid JSON in AI response")
    ∧ normalize_batch jsonParseNone cfg0
        (respond0 (prepare_for_ai [prodA])) (prepare_for_ai [prodA])
        = .error (.service "AI response contains no JSON array")
    ∧ process_batch jsonParseNone cfg0 respond0 0 [] [prodA] = .ok ([], [])
    ∧ process_batches jsonParseNone cfg0 respond0 0 [] [[prodA]]
        = process_batches jsonParseNone cfg0 respond0 0 [] [] := by
  have h := C7_malformed_response jsonParseNone cfg0 respond0 0
  refine ⟨⟨by decide, by decide⟩, ?_, ?_, ?_, ?_, ?_⟩
  · exact h.1 _ (String.toList "no array here") (by decide) (.inl (by decide))
  · exact h.2.1 _ (String.toList "[oops]") 0 5 (by decide) (by decide)
      (by decide) rfl
  · exact h.2.2.1 (prepare_for_ai [prodA]) (respond0 (prepare_for_ai [prodA]))
      "no array here" "AI response contains no JSON array"
      (by decide) (by decide)
      (h.1 _ (String.toList "no array here") (by decide) (.inl (by decide)))
  · exact h.2.2.2.1 [] [prodA] "AI response contains no JSON array"
      (by decide)
  · exact h.2.2.2.2 [] [prodA] [] "AI response contains no JSON array"
      (by decide)

/-! ## Claim C9 -/

/-- C9: shape-invalid classifier responses are batch failures raised as
`AIServiceError`: a non-2xx status, an empty or missing `choices` list, an
empty `content`, and an extracted payload that parses but is not a JSON
array each produce the error; when every attempt yields such a response
the batch fails with the last attempt's error after the retry budget is
spent, and a transport failure or bad status on an early attempt is
retried — a later good attempt still succeeds. -/
theorem C9_invalid_response (jsonParse : List Char → Option Json)
    (cfg : AICfg) :
    (∀ (status : Nat) (body : List (String × Json)), status ≠ 200 →
      do_request (.response status body)
        = .error (.service "AI API returned non-200 status"))
    ∧ (∀ body : List (String × Json),
      (getField body "choices" = none
        ∨ getField body "choices" = some (Json.arr [])) →
      do_request (.response 200 body)
        = .error (.service "AI API returned empty choices"))
    ∧ (∀ (body : List (String × Json)) (c0 : Json) (cs : List Json),
      getField body "choices" = some (Json.arr (c0 :: cs)) →
      contentOfChoice c0 = "" →
      do_request (.response 200 body)
        = .error (.service "AI API returned empty content"))
    ∧ (∀ (text cleaned : List Char) (bs be : Nat) (v : Json),
      stripFence text = .ok cleaned →
      pyFindChar cleaned '[' = some bs →
      pyRFindChar cleaned ']' = some be →
      jsonParse ((cleaned.drop bs).take (be + 1 - bs)) = some v →
      (∀ xs, v ≠ Json.arr xs) →
      extract_json_from_response jsonParse text
        = .error (.service "AI returned a non-array value"))
    ∧ (∀ (env : Nat → HttpOutcome) (items : List AIRequestItem)
        (m : Nat) (ms : Nat → String),
      items ≠ [] → cfg.maxRetries = m + 1 →
      (∀ j ≤ m, do_request (env (1 + j)) = .error (.service (ms j))) →
      normalize_batch jsonParse cfg env items
        = .error (.service (ms m)))
    ∧ (∀ (env : Nat → HttpOutcome) (e : AIFailure) (t : String),
      2 ≤ cfg.maxRetries →
      do_request (env 1) = .error e → do_request (env 2) = .ok t →
      (send_request cfg env).1 = .ok t
        ∧ (send_request cfg env).2.1 = 2) := by
  refine ⟨?_, ?_, ?_, ?_, ?_, ?_⟩
  · intro status body h
    simp only [do_request]
    rw [if_pos h]
  · intro body h
    rcases h with h | h <;> simp only [do_request, h] <;> rfl
  · intro body c0 cs hch hct
    simp only [do_request, hch, hct]
    rfl
  · intro text cleaned bs be v hstrip hbs hbe hparse hnarr
    cases v with
    | arr xs => exact absurd rfl (hnarr xs)
    | str s => simp only [extract_json_from_response, hstrip, hbs, hbe, hparse]
    | num n => simp only [extract_json_from_response, hstrip, hbs, hbe, hparse]
    | bool bb => simp only [extract_json_from_response, hstrip, hbs, hbe, hparse]
    | null => simp only [extract_json_from_response, hstrip, hbs, hbe, hparse]
    | obj kvs => simp only [extract_json_from_response, hstrip, hbs, hbe, hparse]
  · intro env items m ms hne hN hfail
    have hemp : items.isEmpty = false := by
      simpa [List.isEmpty_iff] using hne
    have hex := retryGo_exhaust (fun i => do_request (env i))
      (fun _ => true) 2 m 1 cfg.retryDelay
      (fun j => AIFailure.service (ms j))
      (fun j hj => ⟨hfail j hj, rfl⟩)
    simp only [normalize_batch, hemp, Bool.false_eq_true, if_false,
      send_request, async_retry, hN, hex]
  · intro env e t hN h1 h2
    have hsucc := retryGo_success (fun i => do_request (env i))
      (fun _ => true) 2 t 1 cfg.maxRetries 1 cfg.retryDelay
      (fun _ => e) (by omega)
      (fun j hj => by
        have : j = 0 := by omega
        subst this
        exact ⟨h1, rfl⟩)
      h2
    constructor <;> simp [send_request, async_retry, hsucc]

/-- C9 witness: an all-500 environment fails the batch with the status
error after the single allowed attempt; a 500 on attempt 1 followed by a
good response on attempt 2 is retried and succeeds with two attempts
made. -/
theorem C9_invalid_response_witness :
    do_request (.response 500 [])
        = .error (.service "AI API returned non-200 status")
    ∧ do_request (.response 200 [])
        = .error (.service "AI API returned empty choices")
    ∧ normalize_batch jsonParseNone cfg0 envBad
        [{ avito_id := "a", title := "Ta", description := "D" }]
        = .error (.service "AI API returned non-200 status")
    ∧ ((send_request cfg9 env9).1 = .ok "payload"
        ∧ (send_request cfg9 env9).2.1 = 2) := by
  have h := C9_invalid_response jsonParseNone cfg0
  have h9 := C9_invalid_response jsonParseNone cfg9
  refine ⟨h.1 500 [] (by decide), h.2.1 [] (.inl rfl), ?_, ?_⟩
  · exact h.2.2.2.2.1 envBad
      [{ avito_id := "a", title := "Ta", description := "D" }] 0
      (fun _ => "AI API returned non-200 status") (by decide) rfl
      (fun j hj => by
        have : j = 0 := by omega
        subst this
        exact h.1 500 [] (by decide))
  · exact h9.2.2.2.2.2 env9 (.service "AI API returned non-200 status")
      "payload" (by decide) (h9.1 500 [] (by decide)) (by decide)

/-! ## Helper lemmas: the per-page duplicate scan -/

theorem dedupStep_seen (products : List RawProduct) :
    ∀ seen : Finset String,
      (dedupStep products seen).seen = seen ∪ (idsOf products).toFinset := by
  induction products with
  | nil => intro seen; simp [dedupStep, idsOf]
  | cons p rest ih =>
    intro seen
    by_cases h : p.avito_id ∈ seen
    · rw [show dedupStep (p :: rest) seen
          = ⟨(dedupStep rest seen).newProducts,
             (dedupStep rest seen).duplicateCount + 1,
             (dedupStep rest seen).seen⟩ by simp [dedupStep, h]]
      rw [ih seen]
      ext a
      simp only [Finset.mem_union, List.mem_toFinset, idsOf,
        List.map_cons, List.mem_cons]
      constructor
      · rintro (ha | ha)
        · exact Or.inl ha
        · exact Or.inr (Or.inr ha)
      · rintro (ha | ha | ha)
        · exact Or.inl ha
        · exact Or.inl (ha ▸ h)
        · exact Or.inr ha
    · rw [show dedupStep (p :: rest) seen
          = ⟨p :: (dedupStep rest (insert p.avito_id seen)).newProducts,
             (dedupStep rest (insert p.avito_id seen)).duplicateCount,
             (dedupStep rest (insert p.avito_id seen)).seen⟩ by
        simp [dedupStep, h]]
      rw [ih (insert p.avito_id seen)]
      ext a
      simp only [Finset.mem_union, List.mem_toFinset, idsOf,
        List.map_cons, List.mem_cons, Finset.mem_insert]
      constructor
      · rintro ((ha | ha) | ha)
        · exact Or.inr (Or.inl ha)
        · exact Or.inl ha
        · exact Or.inr (Or.inr ha)
      · rintro (ha | ha | ha)
        · exact Or.inl (Or.inr ha)
        · exact Or.inl (Or.inl ha)
        · exact Or.inr ha

theorem dedupStep_new_ids (products : List RawProduct) :
    ∀ (seen : Finset String) (a : String),
      a ∈ idsOf (dedupStep products seen).newProducts
        ↔ a ∈ idsOf products ∧ a ∉ seen := by
  induction products with
  | nil => intro seen a; simp [dedupStep, idsOf]
  | cons p rest ih =>
    intro seen a
    by_cases h : p.avito_id ∈ seen
    · rw [show dedupStep (p :: rest) seen
          = ⟨(dedupStep rest seen).newProducts,
             (dedupStep rest seen).duplicateCount + 1,
             (dedupStep rest seen).seen⟩ by simp [dedupStep, h]]
      simp only [idsOf, List.map_cons, List.mem_cons]
      constructor
      · intro ha
        obtain ⟨h1, h2⟩ := (ih seen a).mp (by simpa [idsOf] using ha)
        exact ⟨Or.inr (by simpa [idsOf] using h1), h2⟩
      · rintro ⟨ha | ha, h2⟩
        · exact absurd (ha ▸ h) h2
        · simpa [idsOf] using (ih seen a).mpr ⟨by simpa [idsOf] using ha, h2⟩
    · rw [show dedupStep (p :: rest) seen
          = ⟨p :: (dedupStep rest (insert p.avito_id seen)).newProducts,
             (dedupStep rest (insert p.avito_id seen)).duplicateCount,
             (dedupStep rest (insert p.avito_id seen)).seen⟩ by
        simp [dedupStep, h]]
      simp only [idsOf, List.map_cons, List.mem_cons]
      constructor
      · rintro (ha | ha)
        · exact ⟨Or.inl ha, ha ▸ h⟩
        · obtain ⟨h1, h2⟩ :=
            (ih (insert p.avito_id seen) a).mp (by simpa [idsOf] using ha)
          exact ⟨Or.inr h1, fun hc => h2 (Finset.mem_insert_of_mem hc)⟩
      · rintro ⟨ha | ha, h2⟩
        · exact Or.inl ha
        · by_cases hap : a = p.avito_id
          · exact Or.inl hap
          · refine Or.inr ?_
            have := (ih (insert p.avito_id seen) a).mpr
              ⟨ha, by simp [Finset.mem_insert, hap, h2]⟩
            simpa [idsOf] using this

theorem dedupStep_new_nodup (products : List RawProduct) :
    ∀ seen : Finset String,
      (idsOf (dedupStep products seen).newProducts).Nodup := by
  induction products with
  | nil => intro seen; simp [dedupStep, idsOf]
  | cons p rest ih =>
    intro seen
    by_cases h : p.avito_id ∈ seen
    · rw [show dedupStep (p :: rest) seen
          = ⟨(dedupStep rest seen).newProducts,
             (dedupStep rest seen).duplicateCount + 1,
             (dedupStep rest seen).seen⟩ by simp [dedupStep, h]]
      exact ih seen
    · rw [show dedupStep (p :: rest) seen
          = ⟨p :: (dedupStep rest (insert p.avito_id seen)).newProducts,
             (dedupStep rest (insert p.avito_id seen)).duplicateCount,
             (dedupStep rest (insert p.avito_id seen)).seen⟩ by
        simp [dedupStep, h]]
      simp only [idsOf, List.map_cons, List.nodup_cons]
      refine ⟨?_, ih (insert p.avito_id seen)⟩
      intro hc
      have := (dedupStep_new_ids rest (insert p.avito_id seen)
        p.avito_id).mp (by simpa [idsOf] using hc)
      exact this.2 (Finset.mem_insert_self _ _)

/-! ## Helper lemmas: one loop iteration of `scrape_all` -/

/-- Everything the pagination tail (`crawlAfter`) guarantees in one place:
it never touches the extraction-side state, the visited set only grows —
by exactly one fresh identity per insertion — transitions never outpace
insertions, a continuing iteration grew the visited set by exactly one,
and the visited set stays inside any universe containing all
pagination-button targets. -/
theorem crawlAfter_spec (cat : Catalog) (m : Nat) (s : CrawlState) :
    ((crawlAfter cat m s).1.storedBatches = s.storedBatches
      ∧ (crawlAfter cat m s).1.seen = s.seen
      ∧ (crawlAfter cat m s).1.extractedPages = s.extractedPages
      ∧ (crawlAfter cat m s).1.allProducts = s.allProducts)
    ∧ (s.visited ⊆ (crawlAfter cat m s).1.visited
      ∧ (crawlAfter cat m s).1.visited.card + s.inserts
          = s.visited.card + (crawlAfter cat m s).1.inserts
      ∧ (crawlAfter cat m s).1.transitions + s.inserts
          ≤ s.transitions + (crawlAfter cat m s).1.inserts
      ∧ s.transitions ≤ (crawlAfter cat m s).1.transitions)
    ∧ ((crawlAfter cat m s).2 = false →
      (crawlAfter cat m s).1.visited.card = s.visited.card + 1)
    ∧ (∀ V : Finset String,
      (∀ u n t, cat.nextBtn u n = some t
        → normalizeUrlForComparison t ∈ V) →
      s.visited ⊆ V → (crawlAfter cat m s).1.visited ⊆ V) := by
  have hid : ∀ r : CrawlState × Bool, r = (s, true) →
      ((r.1.storedBatches = s.storedBatches
        ∧ r.1.seen = s.seen
        ∧ r.1.extractedPages = s.extractedPages
        ∧ r.1.allProducts = s.allProducts)
      ∧ (s.visited ⊆ r.1.visited
        ∧ r.1.visited.card + s.inserts = s.visited.card + r.1.inserts
        ∧ r.1.transitions + s.inserts ≤ s.transitions + r.1.inserts
        ∧ s.transitions ≤ r.1.transitions)
      ∧ (r.2 = false → r.1.visited.card = s.visited.card + 1)
      ∧ (∀ V : Finset String,
        (∀ u n t, cat.nextBtn u n = some t
          → normalizeUrlForComparison t ∈ V) →
        s.visited ⊆ V → r.1.visited ⊆ V)) := by
    rintro r rfl
    exact ⟨⟨rfl, rfl, rfl, rfl⟩,
      ⟨Finset.Subset.refl _, rfl, le_refl _, le_refl _⟩,
      fun hc => by simp at hc, fun V _ hs => hs⟩
  unfold crawlAfter
  split
  · exact hid _ rfl
  · split
    · exact hid _ rfl
    · split
      · exact hid _ rfl
      · next t hn =>
        split
        · exact hid _ rfl
        · next h3 =>
          split
          · next h4 =>
            refine ⟨⟨rfl, rfl, rfl, rfl⟩,
              ⟨Finset.subset_insert _ _, ?_, ?_, ?_⟩, fun _ => ?_, ?_⟩
            · show (insert (normalizeUrlForComparison t) s.visited).card
                  + s.inserts = s.visited.card + (s.inserts + 1)
              rw [Finset.card_insert_of_not_mem h3]
              omega
            · show s.transitions + 1 + s.inserts
                ≤ s.transitions + (s.inserts + 1)
              omega
            · show s.transitions ≤ s.transitions + 1
              omega
            · show (insert (normalizeUrlForComparison t) s.visited).card
                = s.visited.card + 1
              exact Finset.card_insert_of_not_mem h3
            · intro V hV hs
              exact Finset.insert_subset (hV _ _ _ hn) hs
          · next h4 =>
            refine ⟨⟨rfl, rfl, rfl, rfl⟩,
              ⟨Finset.subset_insert _ _, ?_, ?_, ?_⟩,
              fun hc => by simp at hc, ?_⟩
            · show (insert (normalizeUrlForComparison t) s.visited).card
                  + s.inserts = s.visited.card + (s.inserts + 1)
              rw [Finset.card_insert_of_not_mem h3]
              omega
            · show s.transitions + s.inserts
                ≤ s.transitions + (s.inserts + 1)
              omega
            · show s.transitions ≤ s.transitions
              omega
            · intro V hV hs
              exact Finset.insert_subset (hV _ _ _ hn) hs

/-- `storeBatch` only touches the stored batches and the accumulated
product list. -/
theorem storeBatch_fields (s : CrawlState) (np : List RawProduct) :
    (storeBatch s np).visited = s.visited
    ∧ (storeBatch s np).inserts = s.inserts
    ∧ (storeBatch s np).transitions = s.transitions
    ∧ (storeBatch s np).seen = s.seen
    ∧ (storeBatch s np).extractedPages = s.extractedPages
    ∧ (storeBatch s np).url = s.url
    ∧ (storeBatch s np).pageNum = s.pageNum
    ∧ (storeBatch s np).totalPages = s.totalPages := by
  unfold storeBatch
  split <;> exact ⟨rfl, rfl, rfl, rfl, rfl, rfl, rfl, rfl⟩

/-- What `storeBatch` stores: nothing for an empty batch, the batch
appended otherwise. -/
theorem storeBatch_stored (s : CrawlState) (np : List RawProduct) :
    (storeBatch s np).storedBatches
        = s.storedBatches ++ (if np.isEmpty then [] else [np])
    ∧ (storeBatch s np).allProducts = s.allProducts ++ np := by
  unfold storeBatch
  split
  · next h =>
    have : np = [] := by simpa [List.isEmpty_iff] using h
    simp [this]
  · exact ⟨rfl, rfl⟩

/-- The visited-set facts of `crawlAfter_spec` lifted through a whole loop
iteration (`crawlStep`): the extraction, dedup and store phases never
touch the visited set, the insert counter or the transition counter. -/
theorem crawlStep_spec (cat : Catalog) (m : Nat) (s : CrawlState) :
    (s.visited ⊆ (crawlStep cat m s).1.visited
      ∧ (crawlStep cat m s).1.visited.card + s.inserts
          = s.visited.card + (crawlStep cat m s).1.inserts
      ∧ (crawlStep cat m s).1.transitions + s.inserts
          ≤ s.transitions + (crawlStep cat m s).1.inserts
      ∧ s.transitions ≤ (crawlStep cat m s).1.transitions)
    ∧ ((crawlStep cat m s).2 = false →
      (crawlStep cat m s).1.visited.card = s.visited.card + 1)
    ∧ (∀ V : Finset String,
      (∀ u n t, cat.nextBtn u n = some t
        → normalizeUrlForComparison t ∈ V) →
      s.visited ⊆ V → (crawlStep cat m s).1.visited ⊆ V) := by
  unfold crawlStep
  simp only []
  split
  · -- empty page
    split
    · -- two consecutive empty pages: stop with the state unchanged
      exact ⟨⟨Finset.Subset.refl _, rfl, le_refl _, le_refl _⟩,
        fun hc => by simp at hc, fun V _ hs => hs⟩
    · -- continue into the pagination tail
      exact (crawlAfter_spec cat m
        { s with
          extractedPages := s.extractedPages ++ [cat.parsePage s.url]
          emptyCount := s.emptyCount + 1 }).2
  · -- non-empty page
    split
    · -- duplicate-ratio stop
      refine ⟨⟨?_, ?_, ?_, ?_⟩, fun hc => by simp at hc, ?_⟩
      · rw [(storeBatch_fields _ _).1]
      · rw [(storeBatch_fields _ _).1, (storeBatch_fields _ _).2.1]
      · rw [(storeBatch_fields _ _).2.1,
          (storeBatch_fields _ _).2.2.1]
      · rw [(storeBatch_fields _ _).2.2.1]
      · intro V hV hs
        rw [(storeBatch_fields _ _).1]
        exact hs
    · -- store and continue into the pagination tail
      have h := crawlAfter_spec cat m
        { storeBatch
            { s with
              extractedPages := s.extractedPages ++ [cat.parsePage s.url]
              seen := (dedupStep (cat.parsePage s.url) s.seen).seen }
            (dedupStep (cat.parsePage s.url) s.seen).newProducts with
          emptyCount := 0 }
      refine ⟨⟨?_, ?_, ?_, ?_⟩, ?_, ?_⟩
      · refine Finset.Subset.trans ?_ h.2.1.1
        rw [show ({ storeBatch
            { s with
              extractedPages := s.extractedPages ++ [cat.parsePage s.url]
              seen := (dedupStep (cat.parsePage s.url) s.seen).seen }
            (dedupStep (cat.parsePage s.url) s.seen).newProducts with
          emptyCount := 0 } : CrawlState).visited
            = s.visited from (storeBatch_fields _ _).1]
      · have := h.2.1.2.1
        rw [show ({ storeBatch
            { s with
              extractedPages := s.extractedPages ++ [cat.parsePage s.url]
              seen := (dedupStep (cat.parsePage s.url) s.seen).seen }
            (dedupStep (cat.parsePage s.url) s.seen).newProducts with
          emptyCount := 0 } : CrawlState).visited
            = s.visited from (storeBatch_fields _ _).1,
          show ({ storeBatch
            { s with
              extractedPages := s.extractedPages ++ [cat.parsePage s.url]
              seen := (dedupStep (cat.parsePage s.url) s.seen).seen }
            (dedupStep (cat.parsePage s.url) s.seen).newProducts with
          emptyCount := 0 } : CrawlState).inserts
            = s.inserts from (storeBatch_fields _ _).2.1] at this
        exact this
      · have := h.2.1.2.2.1
        rw [show ({ storeBatch
            { s with
              extractedPages := s.extractedPages ++ [cat.parsePage s.url]
              seen := (dedupStep (cat.parsePage s.url) s.seen).seen }
            (dedupStep (cat.parsePage s.url) s.seen).newProducts with
          emptyCount := 0 } : CrawlState).inserts
            = s.inserts from (storeBatch_fields _ _).2.1,
          show ({ storeBatch
            { s with
              extractedPages := s.extractedPages ++ [cat.parsePage s.url]
              seen := (dedupStep (cat.parsePage s.url) s.seen).seen }
            (dedupStep (cat.parsePage s.url) s.seen).newProducts with
          emptyCount := 0 } : CrawlState).transitions
            = s.transitions from (storeBatch_fields _ _).2.2.1] at this
        exact this
      · have := h.2.1.2.2.2
        rw [show ({ storeBatch
            { s with
              extractedPages := s.extractedPages ++ [cat.parsePage s.url]
              seen := (dedupStep (cat.parsePage s.url) s.seen).seen }
            (dedupStep (cat.parsePage s.url) s.seen).newProducts with
          emptyCount := 0 } : CrawlState).transitions
            = s.transitions from (storeBatch_fields _ _).2.2.1] at this
        exact this
      · intro hc
        have := h.2.2.1 hc
        rw [show ({ storeBatch
            { s with
              extractedPages := s.extractedPages ++ [cat.parsePage s.url]
              seen := (dedupStep (cat.parsePage s.url) s.seen).seen }
            (dedupStep (cat.parsePage s.url) s.seen).newProducts with
          emptyCount := 0 } : CrawlState).visited
            = s.visited from (storeBatch_fields _ _).1] at this
        exact this
      · intro V hV hs
        refine h.2.2.2 V hV ?_
        rw [show ({ storeBatch
            { s with
              extractedPages := s.extractedPages ++ [cat.parsePage s.url]
              seen := (dedupStep (cat.parsePage s.url) s.seen).seen }
            (dedupStep (cat.parsePage s.url) s.seen).newProducts with
          emptyCount := 0 } : CrawlState).visited
            = s.visited from (storeBatch_fields _ _).1]
        exact hs

/-! ## Helper lemmas: the crawl loop -/

theorem crawlLoop_mono (cat : Catalog) (m : Nat) :
    ∀ (fuel : Nat) (s f : CrawlState),
      crawlLoop cat m fuel s = some f →
      s.visited ⊆ f.visited
      ∧ f.visited.card + s.inserts = s.visited.card + f.inserts
      ∧ f.transitions + s.inserts ≤ s.transitions + f.inserts
      ∧ s.transitions ≤ f.transitions := by
  intro fuel
  induction fuel with
  | zero => intro s f h; simp [crawlLoop] at h
  | succ fuel ih =>
    intro s f h
    simp only [crawlLoop] at h
    by_cases hstop : (crawlStep cat m s).2 = true
    · rw [if_pos hstop] at h
      have hf : (crawlStep cat m s).1 = f := Option.some.inj h
      have hs := (crawlStep_spec cat m s).1
      rw [hf] at hs
      exact ⟨hs.1, hs.2.1, hs.2.2.1, hs.2.2.2⟩
    · rw [if_neg hstop] at h
      have h1 := (crawlStep_spec cat m s).1
      have h2 := ih (crawlStep cat m s).1 f h
      refine ⟨Finset.Subset.trans h1.1 h2.1, by omega, by omega, ?_⟩
      exact Nat.le_trans h1.2.2.2 h2.2.2.2

theorem crawlLoop_subsetV (cat : Catalog) (m : Nat) (V : Finset String)
    (hV : ∀ u n t, cat.nextBtn u n = some t
      → normalizeUrlForComparison t ∈ V) :
    ∀ (fuel : Nat) (s f : CrawlState),
      crawlLoop cat m fuel s = some f → s.visited ⊆ V →
      f.visited ⊆ V := by
  intro fuel
  induction fuel with
  | zero => intro s f h; simp [crawlLoop] at h
  | succ fuel ih =>
    intro s f h hs
    simp only [crawlLoop] at h
    by_cases hstop : (crawlStep cat m s).2 = true
    · rw [if_pos hstop] at h
      have hf : (crawlStep cat m s).1 = f := Option.some.inj h
      rw [← hf]
      exact (crawlStep_spec cat m s).2.2 V hV hs
    · rw [if_neg hstop] at h
      exact ih (crawlStep cat m s).1 f h
        ((crawlStep_spec cat m s).2.2 V hV hs)

theorem crawlLoop_total (cat : Catalog) (m : Nat) (V : Finset String)
    (hV : ∀ u n t, cat.nextBtn u n = some t
      → normalizeUrlForComparison t ∈ V) :
    ∀ (fuel : Nat) (s : CrawlState), s.visited ⊆ V →
      V.card + 1 ≤ fuel + s.visited.card →
      (crawlLoop cat m fuel s).isSome := by
  intro fuel
  induction fuel with
  | zero =>
    intro s hs hb
    have := Finset.card_le_card hs
    omega
  | succ fuel ih =>
    intro s hs hb
    simp only [crawlLoop]
    by_cases hstop : (crawlStep cat m s).2 = true
    · rw [if_pos hstop]
      rfl
    · rw [if_neg hstop]
      have hcard := (crawlStep_spec cat m s).2.1
        (Bool.not_eq_true _ ▸ hstop)
      exact ih (crawlStep cat m s).1
        ((crawlStep_spec cat m s).2.2 V hV hs)
        (by rw [hcard]; omega)

/-! ## Claim C1 -/

/-- C1: in every crawl run the visited page-identity set only grows, each
successful page transition consumes one fresh page identity (transitions
never exceed insertions, and each insertion grows the set by exactly one),
and whenever all pagination-button targets normalize into a finite
identity universe `V` the crawl terminates within `V.card` page
transitions — in particular with fuel `V.card` the loop always reaches a
stop condition.  The cyclic catalog whose next-page button points back to
page 1 is the witness below. -/
theorem C1_crawl_termination (cat : Catalog) (categoryUrl : Url)
    (maxPages fuel : Nat) (V : Finset String)
    (hV : ∀ u n t, cat.nextBtn u n = some t
      → normalizeUrlForComparison t ∈ V)
    (hstart : normalizeUrlForComparison categoryUrl ∈ V)
    (hfuel : V.card ≤ fuel) :
    (∀ (fuelAny : Nat) (s f : CrawlState),
        crawlLoop cat maxPages fuelAny s = some f →
        s.visited ⊆ f.visited
        ∧ f.visited.card + s.inserts = s.visited.card + f.inserts
        ∧ f.transitions + s.inserts ≤ s.transitions + f.inserts)
    ∧ (scrape_all cat categoryUrl maxPages fuel).isSome
    ∧ (∀ final, scrape_all cat categoryUrl maxPages fuel = some final →
        final.transitions ≤ final.inserts
        ∧ final.transitions ≤ V.card) := by
  refine ⟨?_, ?_, ?_⟩
  · intro fuelAny s f h
    have := crawlLoop_mono cat maxPages fuelAny s f h
    exact ⟨this.1, this.2.1, this.2.2.1⟩
  · unfold scrape_all
    by_cases hnav : cat.navOk categoryUrl = true
    · rw [if_pos hnav]
      apply crawlLoop_total cat maxPages V hV fuel
        (initialCrawlState cat categoryUrl)
      · simpa [initialCrawlState] using hstart
      · have hc : (initialCrawlState cat categoryUrl).visited.card = 1 := by
          simp [initialCrawlState]
        omega
    · rw [if_neg hnav]
      rfl
  · intro final hfin
    unfold scrape_all at hfin
    by_cases hnav : cat.navOk categoryUrl = true
    · rw [if_pos hnav] at hfin
      have hmono := crawlLoop_mono cat maxPages fuel
        (initialCrawlState cat categoryUrl) final hfin
      have hsub := crawlLoop_subsetV cat maxPages V hV fuel
        (initialCrawlState cat categoryUrl) final hfin
        (by simpa [initialCrawlState] using hstart)
      have hc0 : (initialCrawlState cat categoryUrl).visited.card = 1 := by
        simp [initialCrawlState]
      have hi0 : (initialCrawlState cat categoryUrl).inserts = 0 := rfl
      have ht0 : (initialCrawlState cat categoryUrl).transitions = 0 := rfl
      have hcard := Finset.card_le_card hsub
      have h1 := hmono.2.1
      have h2 := hmono.2.2.1
      rw [hc0, hi0] at h1
      rw [hi0, ht0] at h2
      omega
    · rw [if_neg hnav] at hfin
      have : final.transitions = 0 ∧ final.inserts = 0 := by
        cases Option.some.inj hfin
        exact ⟨rfl, rfl⟩
      omega

/-- C1 witness: the cyclic catalog — its only page identity is page 1, so
with fuel 1 the crawl already reaches a stop condition: it stores the
page-1 products, detects the URL cycle and stops with zero page
transitions instead of looping. -/
theorem C1_crawl_termination_witness :
    (scrape_all cycleCatalog cycleUrl1 0 1).isSome
    ∧ scrape_all cycleCatalog cycleUrl1 0 1 = some cycleFinal
    ∧ cycleFinal.transitions ≤ cycleFinal.inserts
    ∧ cycleFinal.transitions
        ≤ ({normalizeUrlForComparison cycleUrl1} : Finset String).card := by
  have hV : ∀ u n t, cycleCatalog.nextBtn u n = some t →
      normalizeUrlForComparison t
        ∈ ({normalizeUrlForComparison cycleUrl1} : Finset String) := by
    intro u n t h
    have ht : cycleUrl1 = t := Option.some.inj h
    rw [← ht]
    exact Finset.mem_singleton_self _
  have h := C1_crawl_termination cycleCatalog cycleUrl1 0 1
    ({normalizeUrlForComparison cycleUrl1} : Finset String) hV
    (Finset.mem_singleton_self _) (by simp)
  have heq : scrape_all cycleCatalog cycleUrl1 0 1 = some cycleFinal := rfl
  exact ⟨h.2.1, heq, (h.2.2 cycleFinal heq).1, (h.2.2 cycleFinal heq).2⟩

/-! ## Helper lemmas: the crawl-run store invariant -/

theorem goodState_congr {x y : CrawlState}
    (h1 : x.storedBatches = y.storedBatches) (h2 : x.seen = y.seen)
    (h3 : x.extractedPages = y.extractedPages) (hy : goodState y) :
    goodState x := by
  unfold goodState at hy ⊢
  rw [h1, h2, h3]
  exact hy

theorem goodState_append_nil (s : CrawlState) (c : Nat)
    (hg : goodState s) :
    goodState
      { s with extractedPages := s.extractedPages ++ [[]]
               emptyCount := c } := by
  unfold goodState at hg ⊢
  simpa [idsOf] using hg

theorem goodState_page (s : CrawlState) (products : List RawProduct)
    (hg : goodState s) :
    goodState
      (storeBatch
        { s with
          extractedPages := s.extractedPages ++ [products]
          seen := (dedupStep products s.seen).seen }
        (dedupStep products s.seen).newProducts) := by
  have hb : (if (dedupStep products s.seen).newProducts.isEmpty then
        ([] : List (List RawProduct))
      else [(dedupStep products s.seen).newProducts]).flatten
        = (dedupStep products s.seen).newProducts := by
    by_cases h : (dedupStep products s.seen).newProducts.isEmpty
    · have := List.isEmpty_iff.mp h
      simp [h, this]
    · simp [h]
  have hstored := (storeBatch_stored
    { s with
      extractedPages := s.extractedPages ++ [products]
      seen := (dedupStep products s.seen).seen }
    (dedupStep products s.seen).newProducts).1
  have hfields := storeBatch_fields
    { s with
      extractedPages := s.extractedPages ++ [products]
      seen := (dedupStep products s.seen).seen }
    (dedupStep products s.seen).newProducts
  have hall : idsOf ((storeBatch
      { s with
        extractedPages := s.extractedPages ++ [products]
        seen := (dedupStep products s.seen).seen }
      (dedupStep products s.seen).newProducts).storedBatches.flatten)
        = idsOf s.storedBatches.flatten
          ++ idsOf (dedupStep products s.seen).newProducts := by
    rw [hstored]
    rw [show ({ s with
        extractedPages := s.extractedPages ++ [products]
        seen := (dedupStep products s.seen).seen } : CrawlState).storedBatches
      = s.storedBatches from rfl]
    rw [List.flatten_append, hb, idsOf_append]
  unfold goodState
  rw [hall, hfields.2.2.2.1, hfields.2.2.2.2.1]
  rw [show ({ s with
      extractedPages := s.extractedPages ++ [products]
      seen := (dedupStep products s.seen).seen } : CrawlState).seen
    = (dedupStep products s.seen).seen from rfl]
  rw [show ({ s with
      extractedPages := s.extractedPages ++ [products]
      seen := (dedupStep products s.seen).seen } : CrawlState).extractedPages
    = s.extractedPages ++ [products] from rfl]
  refine ⟨?_, ?_, ?_⟩
  · rw [List.nodup_append]
    refine ⟨hg.1, dedupStep_new_nodup products s.seen, ?_⟩
    intro a ha hb'
    have h1 : a ∈ s.seen := (hg.2.1 a).mp ha
    exact ((dedupStep_new_ids products s.seen a).mp hb').2 h1
  · intro a
    rw [List.mem_append, dedupStep_seen products s.seen,
      Finset.mem_union, List.mem_toFinset]
    constructor
    · rintro (ha | ha)
      · exact Or.inl ((hg.2.1 a).mp ha)
      · exact Or.inr ((dedupStep_new_ids products s.seen a).mp ha).1
    · rintro (ha | ha)
      · exact Or.inl ((hg.2.1 a).mpr ha)
      · by_cases hseen : a ∈ s.seen
        · exact Or.inl ((hg.2.1 a).mpr hseen)
        · exact Or.inr
            ((dedupStep_new_ids products s.seen a).mpr ⟨ha, hseen⟩)
  · rw [dedupStep_seen products s.seen, List.flatten_append,
      idsOf_append, List.toFinset_append, hg.2.2]
    congr 1
    simp [idsOf]

theorem crawlStep_good (cat : Catalog) (m : Nat) (s : CrawlState)
    (hg : goodState s) : goodState (crawlStep cat m s).1 := by
  unfold crawlStep
  simp only []
  split
  · next hemp =>
    have hp : cat.parsePage s.url = [] := by
      simpa [List.isEmpty_iff] using hemp
    rw [hp]
    split
    · exact goodState_append_nil s _ hg
    · have hf := (crawlAfter_spec cat m
        { s with
          extractedPages := s.extractedPages ++ [[]]
          emptyCount := s.emptyCount + 1 }).1
      exact goodState_congr hf.1 hf.2.1 hf.2.2.1
        (goodState_append_nil s _ hg)
  · split
    · exact goodState_page s (cat.parsePage s.url) hg
    · have hf := (crawlAfter_spec cat m
        { storeBatch
            { s with
              extractedPages := s.extractedPages ++ [cat.parsePage s.url]
              seen := (dedupStep (cat.parsePage s.url) s.seen).seen }
            (dedupStep (cat.parsePage s.url) s.seen).newProducts with
          emptyCount := 0 }).1
      exact goodState_congr hf.1 hf.2.1 hf.2.2.1
        (goodState_page s (cat.parsePage s.url) hg)

theorem crawlLoop_good (cat : Catalog) (m : Nat) :
    ∀ (fuel : Nat) (s f : CrawlState),
      crawlLoop cat m fuel s = some f → goodState s → goodState f := by
  intro fuel
  induction fuel with
  | zero => intro s f h; simp [crawlLoop] at h
  | succ fuel ih =>
    intro s f h hg
    simp only [crawlLoop] at h
    by_cases hstop : (crawlStep cat m s).2 = true
    · rw [if_pos hstop] at h
      have hf : (crawlStep cat m s).1 = f := Option.some.inj h
      rw [← hf]
      exact crawlStep_good cat m s hg
    · rw [if_neg hstop] at h
      exact ih (crawlStep cat m s).1 f h (crawlStep_good cat m s hg)

theorem foldl_save_of_nodup :
    ∀ (batches : List (List RawProduct)) (db : List RawProduct),
      (idsOf (db ++ batches.flatten)).Nodup →
      batches.foldl save_raw_products db = db ++ batches.flatten := by
  intro batches
  induction batches with
  | nil => intro db _; simp
  | cons b rest ih =>
    intro db hnd
    have hnd1 : (idsOf ((db ++ b) ++ rest.flatten)).Nodup := by
      rw [List.flatten_cons, ← List.append_assoc] at hnd
      exact hnd
    have hsplit : ((idsOf (db ++ b)) ++ idsOf rest.flatten).Nodup := by
      rw [← idsOf_append]
      exact hnd1
    have hdb : ((idsOf db) ++ idsOf b).Nodup := by
      have h1 := (List.nodup_append.mp hsplit).1
      rw [idsOf_append] at h1
      exact h1
    have hfresh : ∀ p ∈ b, p.avito_id ∉ idsOf db := by
      intro p hp hmem
      exact (List.nodup_append.mp hdb).2.2 hmem
        (mem_idsOf.mpr ⟨p, hp, rfl⟩)
    have hbnodup : (idsOf b).Nodup := (List.nodup_append.mp hdb).2.1
    have hb : save_raw_products db b = db ++ b :=
      save_raw_products_of_fresh hfresh hbnodup
    calc (b :: rest).foldl save_raw_products db
        = rest.foldl save_raw_products (save_raw_products db b) := rfl
      _ = rest.foldl save_raw_products (db ++ b) := by rw [hb]
      _ = (db ++ b) ++ rest.flatten := ih (db ++ b) hnd1
      _ = db ++ (b :: rest).flatten := by
          rw [List.flatten_cons, List.append_assoc]

/-! ## Claim C3 -/

/-- C3: over one `scrape_all` run, the set of stored raw-listing ids equals
the union of the ids extracted across all visited pages, with no
duplicates even when a page is revisited: a listing whose id is already in
the seen-set is counted as a duplicate and not stored again, every fresh
id is persisted, and replaying the run's saves into an empty store yields
exactly the stored listings (each id appearing once). -/
theorem C3_dedup_completeness (cat : Catalog) (categoryUrl : Url)
    (maxPages fuel : Nat) (final : CrawlState)
    (h : scrape_all cat categoryUrl maxPages fuel = some final) :
    (idsOf final.storedBatches.flatten).Nodup
    ∧ (∀ a, a ∈ idsOf final.storedBatches.flatten
        ↔ ∃ pg ∈ final.extractedPages, a ∈ idsOf pg)
    ∧ final.storedBatches.foldl save_raw_products []
        = final.storedBatches.flatten := by
  have hgood : goodState final := by
    unfold scrape_all at h
    by_cases hnav : cat.navOk categoryUrl = true
    · rw [if_pos hnav] at h
      refine crawlLoop_good cat maxPages fuel _ final h ?_
      unfold goodState initialCrawlState
      simp [idsOf]
    · rw [if_neg hnav] at h
      cases Option.some.inj h
      unfold goodState
      simp [idsOf]
  refine ⟨hgood.1, ?_, ?_⟩
  · intro a
    rw [hgood.2.1 a, hgood.2.2, List.mem_toFinset]
    constructor
    · intro ha
      obtain ⟨p, hp, he⟩ := mem_idsOf.mp ha
      obtain ⟨pg, hpg, hppg⟩ := List.mem_flatten.mp hp
      exact ⟨pg, hpg, mem_idsOf.mpr ⟨p, hppg, he⟩⟩
    · rintro ⟨pg, hpg, ha⟩
      obtain ⟨p, hppg, he⟩ := mem_idsOf.mp ha
      exact mem_idsOf.mpr ⟨p, List.mem_flatten.mpr ⟨pg, hpg, hppg⟩, he⟩
  · exact foldl_save_of_nodup final.storedBatches []
      (by simpa using hgood.1)

/-- C3 witness: a one-page catalog crawled to completion; the stored ids
are exactly the page's ids, once each, and replaying the saves into an
empty store reproduces them. -/
theorem C3_dedup_completeness_witness :
    scrape_all oneCat url1 1 2 = some c3Final
    ∧ ((idsOf c3Final.storedBatches.flatten).Nodup
      ∧ (∀ a, a ∈ idsOf c3Final.storedBatches.flatten
          ↔ ∃ pg ∈ c3Final.extractedPages, a ∈ idsOf pg)
      ∧ c3Final.storedBatches.foldl save_raw_products []
          = c3Final.storedBatches.flatten) :=
  ⟨rfl, C3_dedup_completeness oneCat url1 1 2 c3Final rfl⟩

/-! ## Claim C4 -/

/-- The source's float test `duplicate_count / len(products) >=
DUPLICATE_THRESHOLD` over exact rationals is the integer test used in
`crawlStep`. -/
theorem duplicate_ratio_ge_iff (d n : Nat) (hn : 0 < n) :
    DUPLICATE_THRESHOLD ≤ (d : ℚ) / (n : ℚ) ↔ 4 * n ≤ 5 * d := by
  unfold DUPLICATE_THRESHOLD
  rw [div_le_div_iff (by norm_num) (by exact_mod_cast hn)]
  constructor
  · intro h
    have h' : (4 * n : ℚ) ≤ 5 * d := by linarith
    exact_mod_cast h'
  · intro h
    have h' : (4 * n : ℚ) ≤ 5 * d := by exact_mod_cast h
    linarith

/-- Strict version of `duplicate_ratio_ge_iff`, for a fraction strictly
exceeding the threshold. -/
theorem duplicate_ratio_lt_iff (d n : Nat) (hn : 0 < n) :
    DUPLICATE_THRESHOLD < (d : ℚ) / (n : ℚ) ↔ 4 * n < 5 * d := by
  unfold DUPLICATE_THRESHOLD
  rw [div_lt_div_iff (by norm_num) (by exact_mod_cast hn)]
  constructor
  · intro h
    have h' : (4 * n : ℚ) < 5 * d := by linarith
    exact_mod_cast h'
  · intro h
    have h' : (4 * n : ℚ) < 5 * d := by exact_mod_cast h
    linarith

/-- C4: when the fraction of a non-empty page's listings already in the
seen-set strictly exceeds the duplication threshold `0.8`, the loop
iteration persists the page's remaining fresh listings and stops the
crawl: no later page is extracted, no page transition happens, and the
final state is exactly the current one plus this page's extraction and its
fresh listings.  (The code stops at ratios `≥ 0.8`; a ratio strictly above
the threshold, as claimed, a fortiori stops.) -/
theorem C4_duplicate_ratio_stop (cat : Catalog) (maxPages fuel : Nat)
    (s : CrawlState)
    (hne : cat.parsePage s.url ≠ [])
    (hratio : DUPLICATE_THRESHOLD
      < ((dedupStep (cat.parsePage s.url) s.seen).duplicateCount : ℚ)
          / ((cat.parsePage s.url).length : ℚ)) :
    (crawlLoop cat maxPages (fuel + 1) s).isSome
    ∧ ∀ final, crawlLoop cat maxPages (fuel + 1) s = some final →
        final.extractedPages = s.extractedPages ++ [cat.parsePage s.url]
        ∧ final.transitions = s.transitions
        ∧ final.seen = (dedupStep (cat.parsePage s.url) s.seen).seen
        ∧ final.allProducts
            = s.allProducts
              ++ (dedupStep (cat.parsePage s.url) s.seen).newProducts
        ∧ final.storedBatches
            = s.storedBatches
              ++ (if (dedupStep (cat.parsePage s.url)
                      s.seen).newProducts.isEmpty then []
                  else [(dedupStep (cat.parsePage s.url)
                      s.seen).newProducts]) := by
  have hlen : 0 < (cat.parsePage s.url).length :=
    List.length_pos.mpr hne
  have hint : 4 * (cat.parsePage s.url).length
      ≤ 5 * (dedupStep (cat.parsePage s.url) s.seen).duplicateCount := by
    have := (duplicate_ratio_lt_iff _ _ hlen).mp hratio
    omega
  have hemp : (cat.parsePage s.url).isEmpty = false := by
    simpa [List.isEmpty_iff] using hne
  have hstep : crawlStep cat maxPages s
      = (storeBatch
          { s with
            extractedPages := s.extractedPages ++ [cat.parsePage s.url]
            seen := (dedupStep (cat.parsePage s.url) s.seen).seen }
          (dedupStep (cat.parsePage s.url) s.seen).newProducts, true) := by
    unfold crawlStep
    simp only [hemp, Bool.false_eq_true, if_false]
    rw [if_pos hint]
  have hloop : crawlLoop cat maxPages (fuel + 1) s
      = some (storeBatch
          { s with
            extractedPages := s.extractedPages ++ [cat.parsePage s.url]
            seen := (dedupStep (cat.parsePage s.url) s.seen).seen }
          (dedupStep (cat.parsePage s.url) s.seen).newProducts) := by
    simp only [crawlLoop, hstep]
    rfl
  refine ⟨by rw [hloop]; rfl, ?_⟩
  intro final hfin
  rw [hloop] at hfin
  have hfe := (Option.some.inj hfin).symm
  subst hfe
  refine ⟨?_, ?_, ?_, ?_, ?_⟩
  · rw [(storeBatch_fields _ _).2.2.2.2.1]
  · rw [(storeBatch_fields _ _).2.2.1]
  · rw [(storeBatch_fields _ _).2.2.2.1]
  · rw [(storeBatch_stored _ _).2]
  · rw [(storeBatch_stored _ _).1]

/-- C4 witness: the fixture page carries 10 listings of which 9 are
already seen (ratio 0.9): exactly the 1 fresh listing is persisted and the
crawl stops with no transition and no later page. -/
theorem C4_duplicate_ratio_stop_witness :
    (cat4.parsePage s4.url ≠ [])
    ∧ 4 * (cat4.parsePage s4.url).length
        < 5 * (dedupStep (cat4.parsePage s4.url) s4.seen).duplicateCount
    ∧ crawlLoop cat4 0 1 s4 = some final4
    ∧ final4.extractedPages = s4.extractedPages ++ [cat4.parsePage s4.url]
    ∧ final4.transitions = s4.transitions
    ∧ final4.allProducts = s4.allProducts ++ [freshProd]
    ∧ final4.storedBatches = s4.storedBatches ++ [[freshProd]] := by
  have hne : cat4.parsePage s4.url ≠ [] := by decide
  have hd : (dedupStep (cat4.parsePage s4.url) s4.seen).duplicateCount
      = 9 := by decide
  have hl : (cat4.parsePage s4.url).length = 10 := by decide
  have hnew : (dedupStep (cat4.parsePage s4.url) s4.seen).newProducts
      = [freshProd] := by decide
  have hratio : DUPLICATE_THRESHOLD
      < ((dedupStep (cat4.parsePage s4.url) s4.seen).duplicateCount : ℚ)
        / ((cat4.parsePage s4.url).length : ℚ) := by
    rw [hd, hl]
    exact (duplicate_ratio_lt_iff 9 10 (by decide)).mpr (by decide)
  have h := C4_duplicate_ratio_stop cat4 0 0 s4 hne hratio
  have heq : crawlLoop cat4 0 1 s4 = some final4 := rfl
  have hc := h.2 final4 heq
  refine ⟨hne, by decide, heq, hc.1, hc.2.1, ?_, ?_⟩
  · rw [← hnew]
    exact hc.2.2.2.1
  · have hs := hc.2.2.2.2
    rw [hnew] at hs
    simpa using hs

end Avito
